import Mathlib

set_option maxHeartbeats 1000000

/-!
Shallow embedding of the `sword` dungeon/map generator
(packages `internal/grid`, `internal/terrain`, `internal/mapgen`).

Coordinates and dimensions are Go `int`, embedded as `Int`.
Grid contents are stored in a row-major `List`, mirroring the Go slice;
the Go zero value of the element type is the `Inhabited.default` of the
embedded type.  Go's seeded `*rand.Rand` is embedded as an explicit
stream of naturals consumed one value per `Intn` call (`Rng`); the value
returned by `Intn n` is the next stream element reduced mod `n`, so one
`Rng` value determines the whole run.  Go slice-index panics and nil
dereferences are embedded as `Except` errors, and the one genuinely
unbounded loop in the source (the room placement retry loop) takes an
explicit fuel argument.
-/

namespace Sword

/-- Embedding of `terrain.Type` (src/unnamed/part_019): the four tile
kinds, with `Stone` the Go zero value. -/
inductive TileKind where
  | Stone
  | Room
  | Corridor
  | Door
deriving DecidableEq, Repr, Inhabited

/-- Embedding of `grid.Grid[T]` (src/internal/grid/grid.go): width,
height and a row-major backing slice. -/
structure Grid (T : Type) where
  Width : Int
  Height : Int
  grid : List T
deriving Repr

/-- Embedding of `grid.NewGrid` : a grid filled with the zero value. -/
def Grid.new (T : Type) [Inhabited T] (width height : Int) : Grid T :=
  { Width := width, Height := height,
    grid := List.replicate (width * height).toNat default }

/-- Embedding of `Grid.Get`: out-of-bounds reads return the zero value
of the element type. -/
def Grid.Get [Inhabited T] (m : Grid T) (x y : Int) : T :=
  if x < 0 ∨ x ≥ m.Width ∨ y < 0 ∨ y ≥ m.Height then default
  else (m.grid.getD (y * m.Width + x).toNat default)

/-- Embedding of `Grid.Set`: out-of-bounds writes are no-ops. -/
def Grid.Set (m : Grid T) (x y : Int) (t : T) : Grid T :=
  if x < 0 ∨ x ≥ m.Width ∨ y < 0 ∨ y ≥ m.Height then m
  else { m with grid := m.grid.set (y * m.Width + x).toNat t }

/-- Row-major list of the first `n` naturals as `Int`s, used to embed
Go `for i := 0; i < n; i++` loops over `Int` bounds. -/
def rangeInt (n : Int) : List Int :=
  (List.range n.toNat).map (fun k : Nat => (k : Int))

/-- Embedding of `Grid.SetRect`: only the origin is bounds-checked, the
individual `Set` calls clip the rest. -/
def Grid.SetRect (m : Grid T) (x y w h : Int) (t : T) : Grid T :=
  if x < 0 ∨ x ≥ m.Width ∨ y < 0 ∨ y ≥ m.Height then m
  else
    (rangeInt h).foldl
      (fun acc dy =>
        (rangeInt w).foldl (fun acc2 dx => acc2.Set (x + dx) (y + dy) t) acc)
      m

/-- Embedding of the generator-owned `*rand.Rand` (seeded at
construction): an explicit stream of naturals plus a cursor.  Each
`Intn` call consumes exactly one stream element. -/
structure Rng where
  stream : Nat → Nat
  pos : Nat

/-- Embedding of `rng.Intn(n)`: the next stream value reduced mod `n`
(in `[0, n)` for `n > 0`, as in Go). -/
def Rng.intn (r : Rng) (n : Int) : Int × Rng :=
  (((r.stream r.pos : Int)) % n, { stream := r.stream, pos := r.pos + 1 })

/-- Embedding of `mapgen.Region` (id plus debug color). -/
structure Region where
  id : Int
  clr : Int × Int × Int
deriving DecidableEq, Repr, Inhabited

/-- Embedding of `mapgen.Room`. -/
structure Room where
  X : Int
  Y : Int
  Width : Int
  Height : Int
  Region : Sword.Region
deriving DecidableEq, Repr, Inhabited

/-- Embedding of `mapgen.Direction`. -/
inductive Direction where
  | North
  | South
  | East
  | West
deriving DecidableEq, Repr, Inhabited

/-- Embedding of `mapgen.GenerationPhase` (current iteration, including
`PhaseRemoveDeadEnds` set by `connectRegions` and consumed by
`removeDeadEnds`). -/
inductive GenerationPhase where
  | PhaseRooms
  | PhaseMazes
  | PhaseConnectors
  | PhaseConnectingRegions
  | PhaseRemoveDeadEnds
  | PhaseDone
deriving DecidableEq, Repr, Inhabited

/-- Embedding of `mapgen.Connector` (cell location plus the two region
pointers, here region values rewritten in place via the store). -/
structure Connector where
  x : Int
  y : Int
  region1 : Region
  region2 : Region
deriving DecidableEq, Repr, Inhabited

/-- Go runtime failures of the source, made explicit: slice index
panics, nil-pointer dereferences, and exhaustion of the fuel bounding
the room placement retry loop (whose Go original can run forever). -/
inductive GoErr where
  | indexOutOfRange
  | nilDereference
  | outOfFuel
deriving DecidableEq, Repr, Inhabited

/-- Embedding of the current `mapgen.MapGenerator` state.  Go's
`map[int]*Region` is an association list (ids are unique), and the
`*Connector` pointers shared between `connectorGrid`, `connectors` and
`rootConnectors` are indices into the append-only `connectorStore`, so
in-place region rewrites stay visible through every alias as in Go. -/
structure MapGenerator where
  Width : Int
  Height : Int
  phase : GenerationPhase
  maxRoomAttempts : Int
  curRoomAttempts : Int
  terrainGrid : Grid TileKind
  connectorGrid : Grid (Option Nat)
  connectorStore : List Connector
  roomList : List Room
  unconnectedRooms : List Room
  x : Int
  y : Int
  incompleteRows : List Int
  incompleteCols : List Int
  visitedMazeLocations : List (Int × Int)
  walking : Bool
  rng : Rng
  regions : List (Int × Region)
  curRegionID : Int
  regionGrid : Grid (Option Region)
  currentRegion : Option Region
  rootRegion : Option Region
  connectors : List Nat
  rootConnectors : List Nat
  deadEnds : List (Int × Int)
  deadEndsRemoved : Int
  deadEndsPreviouslyRemoved : Int

/-- Go map assignment `m[k] = v`: replace the binding if present,
otherwise add it. -/
def mapInsert (m : List (Int × Region)) (k : Int) (v : Region) :
    List (Int × Region) :=
  if m.any (fun p => p.1 = k) then
    m.map (fun p => if p.1 = k then (k, v) else p)
  else m ++ [(k, v)]

/-- Go `delete(m, k)`. -/
def mapErase (m : List (Int × Region)) (k : Int) : List (Int × Region) :=
  m.filter (fun p => p.1 ≠ k)

/-- Go parallel assignment `a[i], a[j] = a[j], a[i]`. -/
def listSwap [Inhabited T] (a : List T) (i j : Nat) : List T :=
  let vi := a.getD i default
  let vj := a.getD j default
  (a.set i vj).set j vi

/-- The loop of `shuffleArray` (src/internal/mapgen/util.go): Fisher
and Yates swaps for `i` from `len-1` down to `1`; the counter is `i-1`. -/
def shuffleGo [Inhabited T] (rng : Rng) (a : List T) :
    Nat → List T × Rng
  | 0 => (a, rng)
  | Nat.succ k =>
      let p := rng.intn ((k : Int) + 2)
      shuffleGo p.2 (listSwap a (k + 1) p.1.toNat) k

/-- Embedding of `shuffleArray` (src/internal/mapgen/util.go). -/
def shuffleArray [Inhabited T] (rng : Rng) (a : List T) : List T × Rng :=
  shuffleGo rng a (a.length - 1)

/-- Embedding of `nextRegion` (src/internal/mapgen/util.go, current
iteration): mints a region with id `curRegionID`, consumes three
`Intn(192)` calls for the debug color, and inserts it into the live
region map. -/
def nextRegion (mg : MapGenerator) : Region × MapGenerator :=
  let p1 := mg.rng.intn 192
  let p2 := p1.2.intn 192
  let p3 := p2.2.intn 192
  let r : Region :=
    { id := mg.curRegionID, clr := (p1.1 + 16, p2.1 + 16, p3.1 + 16) }
  (r, { mg with rng := p3.2, curRegionID := mg.curRegionID + 1,
                regions := mapInsert mg.regions r.id r })

/-- Embedding of `roomSizes` (src/internal/mapgen/mapgen.go). -/
def roomSizes : List (Int × Int) :=
  [(3,3),(3,5),(5,3),(7,5),(5,7),(7,7),(9,7),(7,9),(9,9),(11,9),(9,11),(11,11)]

/-- Embedding of `Room.Overlaps` (src/unnamed/part_012). -/
def Room.Overlaps (r other : Room) : Bool :=
  (decide (r.X < other.X + other.Width) && decide (r.X + r.Width > other.X))
    &&
  (decide (r.Y < other.Y + other.Height) && decide (r.Y + r.Height > other.Y))

/-- Embedding of `roomFits` (src/unnamed/part_012): inside the 1-cell
border and overlapping no previously accepted room. -/
def roomFits (mg : MapGenerator) (room : Room) : Bool :=
  if room.X < 1 ∨ room.Y < 1 ∨ room.X + room.Width > mg.Width - 1 ∨
      room.Y + room.Height > mg.Height - 1 then
    false
  else !(mg.roomList.any (fun r => room.Overlaps r))

/-- Embedding of `addRoom` (src/unnamed/part_012): stamp terrain and
region grids over the rectangle and append to the room list. -/
def addRoom (mg : MapGenerator) (room : Room) : MapGenerator :=
  { mg with
    terrainGrid :=
      mg.terrainGrid.SetRect room.X room.Y room.Width room.Height .Room,
    roomList := mg.roomList ++ [room],
    regionGrid :=
      mg.regionGrid.SetRect room.X room.Y room.Width room.Height
        (some room.Region) }

/-- One iteration body of the placement loop in `generateRooms`
(src/unnamed/part_012): draw a palette size and an odd-aligned
position, returning the candidate room and the state with the random
stream advanced. -/
def attemptRoom (cur : Region) (mg : MapGenerator) : Room × MapGenerator :=
  let ps := mg.rng.intn (roomSizes.length : Int)
  let sz := roomSizes.getD ps.1.toNat (3, 3)
  let px := ps.2.intn (mg.Width / 2)
  let py := px.2.intn (mg.Height / 2)
  ({ X := 1 + px.1 * 2, Y := 1 + py.1 * 2,
     Width := sz.1, Height := sz.2, Region := cur },
   { mg with rng := py.2 })

/-- The `for !successfullyPlacedRoom` loop of `generateRooms`
(src/unnamed/part_012).  The Go loop exits only when a placement
succeeds; `fuel` bounds it, `.error .outOfFuel` meaning the loop was
still running after `fuel` attempts. -/
def roomLoop (cur : Region) : Nat → MapGenerator → Except GoErr MapGenerator
  | 0, _ => .error .outOfFuel
  | Nat.succ fuel, mg =>
      let ar := attemptRoom cur mg
      if roomFits ar.2 ar.1 then
        let mg2 := addRoom ar.2 ar.1
        .ok { mg2 with curRoomAttempts := mg2.curRoomAttempts + 1 }
      else
        roomLoop cur fuel
          { ar.2 with curRoomAttempts := ar.2.curRoomAttempts + 1 }

/-- Embedding of `generateRooms` (src/unnamed/part_012): one driver
tick of the rooms phase. -/
def generateRooms (fuel : Nat) (mg : MapGenerator) :
    Except GoErr MapGenerator := do
  let mg1 ←
    if mg.curRoomAttempts < mg.maxRoomAttempts then
      let rr := nextRegion mg
      roomLoop rr.1 fuel { rr.2 with currentRegion := some rr.1 }
    else pure mg
  if mg1.curRoomAttempts ≥ mg1.maxRoomAttempts then
    pure { mg1 with phase := .PhaseMazes }
  else
    pure mg1

/-- The odd values `1, 3, 5, ...` strictly below `bound`, embedding the
Go loops `for v := 1; v < bound; v += 2`. -/
def oddsLT (bound : Int) : List Int :=
  (List.range (bound.toNat / 2)).map (fun k : Nat => 1 + 2 * (k : Int))

/-- The values `1, 2, ...` strictly below `bound`, embedding the Go
loops `for v := 1; v < bound; v += 1`. -/
def interiorRange (bound : Int) : List Int :=
  (List.range (bound - 1).toNat).map (fun k : Nat => 1 + (k : Int))

/-- Embedding of `startWalking` (src/internal/mapgen/corridors.go). -/
def startWalking (mg : MapGenerator) : MapGenerator :=
  let rr := nextRegion mg
  let mg1 := { rr.2 with currentRegion := some rr.1 }
  { mg1 with
    terrainGrid := mg1.terrainGrid.Set mg1.x mg1.y .Corridor,
    regionGrid := mg1.regionGrid.Set mg1.x mg1.y (some rr.1),
    visitedMazeLocations := mg1.visitedMazeLocations ++ [(mg1.x, mg1.y)],
    walking := true }

/-- The inner `for len(mg.incompleteCols) > 0` scan of `carveMaze`:
pop non-Stone columns; on the first Stone seed set the cursor and start
walking (the found column stays in the list, as in the source). -/
def colScan (scanY : Int) (mg : MapGenerator) :
    List Int → Option MapGenerator
  | [] => none
  | c :: rest =>
      if mg.terrainGrid.Get c scanY = TileKind.Stone then
        some (startWalking { mg with x := c, y := scanY,
                                     incompleteCols := c :: rest })
      else colScan scanY mg rest

/-- Embedding of `carveMaze` (src/internal/mapgen/corridors.go).  The
`Bool` is the `done` result.  The `headD` reads index 0 of a list that
is nonempty on that branch (shuffling preserves length). -/
def carveMaze (mg0 : MapGenerator) : MapGenerator × Bool :=
  if mg0.incompleteRows.isEmpty then (mg0, true)
  else
    let mg1 := { mg0 with
      incompleteCols := mg0.incompleteCols ++ oddsLT (mg0.Width - 1) }
    let s1 := shuffleArray mg1.rng mg1.incompleteRows
    let mg2 := { mg1 with incompleteRows := s1.1, rng := s1.2 }
    let s2 := shuffleArray mg2.rng mg2.incompleteCols
    let mg3 := { mg2 with incompleteCols := s2.1, rng := s2.2 }
    let scanY := mg3.incompleteRows.headD 0
    match colScan scanY mg3 mg3.incompleteCols with
    | some mg4 => (mg4, false)
    | none =>
        ({ mg3 with incompleteCols := [],
                    incompleteRows := mg3.incompleteRows.tail }, false)

/-- The ascending swap loop of `shuffleDirections`
(src/internal/mapgen/corridors.go): `j := Intn(i+1)` for `i = 0..3`. -/
def shuffleDirGo (rng : Rng) (a : List Direction) :
    List Nat → List Direction × Rng
  | [] => (a, rng)
  | i :: rest =>
      let p := rng.intn ((i : Int) + 1)
      shuffleDirGo p.2 (listSwap a i p.1.toNat) rest

/-- Embedding of `shuffleDirections`. -/
def shuffleDirections (mg : MapGenerator) :
    List Direction × MapGenerator :=
  let r := shuffleDirGo mg.rng [Direction.North, .South, .East, .West]
      (List.range 4)
  (r.1, { mg with rng := r.2 })

/-- Embedding of `canCarve` (src/internal/mapgen/corridors.go): the
cell two steps away must be in bounds and still Stone. -/
def canCarve (mg : MapGenerator) (d : Direction) : Bool :=
  match d with
  | .North =>
      if mg.y - 2 < 0 then false
      else decide (mg.terrainGrid.Get mg.x (mg.y - 2) = TileKind.Stone)
  | .South =>
      if mg.y + 2 ≥ mg.Height then false
      else decide (mg.terrainGrid.Get mg.x (mg.y + 2) = TileKind.Stone)
  | .East =>
      if mg.x + 2 ≥ mg.Width then false
      else decide (mg.terrainGrid.Get (mg.x + 2) mg.y = TileKind.Stone)
  | .West =>
      if mg.x - 2 < 0 then false
      else decide (mg.terrainGrid.Get (mg.x - 2) mg.y = TileKind.Stone)

/-- Embedding of `doCarve` (src/internal/mapgen/corridors.go): carve
the one-step and two-step cells and move the cursor. -/
def doCarve (mg : MapGenerator) (d : Direction) : MapGenerator :=
  match d with
  | .North =>
      { mg with
        terrainGrid := (mg.terrainGrid.Set mg.x (mg.y - 1) .Corridor).Set
          mg.x (mg.y - 2) .Corridor,
        regionGrid := (mg.regionGrid.Set mg.x (mg.y - 1)
          mg.currentRegion).Set mg.x (mg.y - 2) mg.currentRegion,
        y := mg.y - 2 }
  | .South =>
      { mg with
        terrainGrid := (mg.terrainGrid.Set mg.x (mg.y + 1) .Corridor).Set
          mg.x (mg.y + 2) .Corridor,
        regionGrid := (mg.regionGrid.Set mg.x (mg.y + 1)
          mg.currentRegion).Set mg.x (mg.y + 2) mg.currentRegion,
        y := mg.y + 2 }
  | .East =>
      { mg with
        terrainGrid := (mg.terrainGrid.Set (mg.x + 1) mg.y .Corridor).Set
          (mg.x + 2) mg.y .Corridor,
        regionGrid := (mg.regionGrid.Set (mg.x + 1) mg.y
          mg.currentRegion).Set (mg.x + 2) mg.y mg.currentRegion,
        x := mg.x + 2 }
  | .West =>
      { mg with
        terrainGrid := (mg.terrainGrid.Set (mg.x - 1) mg.y .Corridor).Set
          (mg.x - 2) mg.y .Corridor,
        regionGrid := (mg.regionGrid.Set (mg.x - 1) mg.y
          mg.currentRegion).Set (mg.x - 2) mg.y mg.currentRegion,
        x := mg.x - 2 }

/-- The direction loop of `mazeWalk`: first carvable direction carves,
moves, and appends the new position to the visited list. -/
def walkDirs (mg : MapGenerator) : List Direction → Option MapGenerator
  | [] => none
  | d :: rest =>
      if canCarve mg d then
        let mg1 := doCarve mg d
        some { mg1 with
               visitedMazeLocations :=
                 mg1.visitedMazeLocations ++ [(mg1.x, mg1.y)] }
      else walkDirs mg rest

/-- Embedding of `mazeWalk` (src/internal/mapgen/corridors.go). -/
def mazeWalk (mg : MapGenerator) : MapGenerator × Bool :=
  let sd := shuffleDirections mg
  match walkDirs sd.2 sd.1 with
  | some mg2 => (mg2, true)
  | none => (sd.2, false)

/-- The direction loop inside `mazeHunt` (no visited append there). -/
def huntDirs (mg : MapGenerator) : List Direction → Option MapGenerator
  | [] => none
  | d :: rest =>
      if canCarve mg d then some (doCarve mg d) else huntDirs mg rest

/-- The `for len(mg.visitedMazeLocations) > 0` loop of `mazeHunt`:
move the cursor to the head position, try the shuffled directions, pop
on failure. -/
def huntLoop : MapGenerator → List (Int × Int) → MapGenerator × Bool
  | mg, [] => ({ mg with visitedMazeLocations := [] }, false)
  | mg, p :: rest =>
      let mg1 := { mg with x := p.1, y := p.2,
                           visitedMazeLocations := p :: rest }
      let sd := shuffleDirections mg1
      match huntDirs sd.2 sd.1 with
      | some mg2 => (mg2, true)
      | none => huntLoop { sd.2 with visitedMazeLocations := rest } rest

/-- Embedding of `mazeHunt` (src/internal/mapgen/corridors.go). -/
def mazeHunt (mg : MapGenerator) : MapGenerator × Bool :=
  let s := shuffleArray mg.rng mg.visitedMazeLocations
  huntLoop { mg with rng := s.2, visitedMazeLocations := s.1 } s.1

/-- Embedding of `walk` (src/internal/mapgen/corridors.go): walk, then
hunt, and when both fail mint the next region and stop walking. -/
def walk (mg : MapGenerator) : MapGenerator :=
  let w1 := mazeWalk mg
  let h1 := if w1.2 then (w1.1, true) else mazeHunt w1.1
  if h1.2 then { h1.1 with walking := true }
  else
    let rr := nextRegion h1.1
    { rr.2 with currentRegion := some rr.1, walking := false }

/-- Embedding of `generateMazes` (src/internal/mapgen/corridors.go). -/
def generateMazes (mg : MapGenerator) : MapGenerator :=
  if mg.walking then walk mg
  else
    let c := carveMaze mg
    if c.2 then { c.1 with phase := .PhaseConnectors } else c.1

/-- The four walkable pair shapes tested by `isConnectorTile`
(src/internal/mapgen/connectors.go): Room/Room, Corridor/Corridor,
Room/Corridor, Corridor/Room. -/
def roomOrCorridorPair (a b : TileKind) : Bool :=
  decide ((a = TileKind.Room ∧ b = TileKind.Room) ∨
    (a = TileKind.Corridor ∧ b = TileKind.Corridor) ∨
    (a = TileKind.Room ∧ b = TileKind.Corridor) ∨
    (a = TileKind.Corridor ∧ b = TileKind.Room))

/-- One axis of `isConnectorTile`: when the pair is walkable, compare
the two region ids (a nil region pointer dereference is a Go panic). -/
def connectorAxis (t1 t2 : TileKind) (r1 r2 : Option Region) :
    Except GoErr (Option (Region × Region)) :=
  if roomOrCorridorPair t1 t2 then
    match r1, r2 with
    | some a, some b =>
        if a.id ≠ b.id then .ok (some (a, b)) else .ok none
    | _, _ => .error .nilDereference
  else .ok none

/-- Embedding of `isConnectorTile` (src/internal/mapgen/connectors.go):
east/west pair first, then north/south. -/
def isConnectorTile (mg : MapGenerator) (x y : Int) :
    Except GoErr (Bool × Option (Region × Region)) :=
  match connectorAxis (mg.terrainGrid.Get (x + 1) y)
      (mg.terrainGrid.Get (x - 1) y)
      (mg.regionGrid.Get (x + 1) y) (mg.regionGrid.Get (x - 1) y) with
  | .error e => .error e
  | .ok (some p) => .ok (true, some p)
  | .ok none =>
      match connectorAxis (mg.terrainGrid.Get x (y - 1))
          (mg.terrainGrid.Get x (y + 1))
          (mg.regionGrid.Get x (y - 1)) (mg.regionGrid.Get x (y + 1)) with
      | .error e => .error e
      | .ok (some p) => .ok (true, some p)
      | .ok none => .ok (false, none)

/-- One cell of the `generateConnectors` scan: record a connector in
the store, the grid and the list. -/
def connScanCell (mg : MapGenerator) (x y : Int) :
    Except GoErr MapGenerator := do
  let r ← isConnectorTile mg x y
  match r with
  | (true, some rp) =>
      let c : Connector := { x := x, y := y, region1 := rp.1, region2 := rp.2 }
      let idx := mg.connectorStore.length
      pure { mg with connectorStore := mg.connectorStore ++ [c],
                     connectorGrid := mg.connectorGrid.Set x y (some idx),
                     connectors := mg.connectors ++ [idx] }
  | _ => pure mg

/-- Error-propagating left fold used for the Go loops whose body can
panic. -/
def foldExcept (f : MapGenerator → Int → Except GoErr MapGenerator) :
    MapGenerator → List Int → Except GoErr MapGenerator
  | mg, [] => .ok mg
  | mg, v :: rest => do
      let mg1 ← f mg v
      foldExcept f mg1 rest

/-- One row of the `generateConnectors` scan. -/
def connScanRow (mg : MapGenerator) (y : Int) :
    Except GoErr MapGenerator :=
  foldExcept (fun m x => connScanCell m x y) mg
    (interiorRange (mg.Width - 1))

/-- Embedding of `generateConnectors`
(src/internal/mapgen/connectors.go): scan every interior cell, then
advance the phase. -/
def generateConnectors (mg : MapGenerator) : Except GoErr MapGenerator := do
  let mg1 ← foldExcept connScanRow mg (interiorRange (mg.Height - 1))
  pure { mg1 with phase := .PhaseConnectingRegions }

/-- Embedding of `connectorIsBesideDoor`
(src/internal/mapgen/connect.go). -/
def connectorIsBesideDoor (mg : MapGenerator) (c : Connector) : Bool :=
  decide (mg.terrainGrid.Get (c.x + 1) c.y = TileKind.Door ∨
    mg.terrainGrid.Get (c.x - 1) c.y = TileKind.Door ∨
    mg.terrainGrid.Get c.x (c.y - 1) = TileKind.Door ∨
    mg.terrainGrid.Get c.x (c.y + 1) = TileKind.Door)

/-- Embedding of `connectsRootToUnconnectedRegion`
(src/internal/mapgen/connect.go), with the root region dereferenced by
the caller. -/
def connectsRootToUnconnectedRegion (root : Region) (c : Connector) :
    Bool :=
  (decide (c.region1.id = root.id) && decide (c.region2.id ≠ root.id)) ||
  (decide (c.region2.id = root.id) && decide (c.region1.id ≠ root.id))

/-- Embedding of `selectRootRegion` (src/internal/mapgen/connect.go):
append all rooms to the unconnected pool, shuffle, take the last room
(a slice index panic when there are no rooms), make its region the
root.  The Go code recolors the root region in place through the
shared pointer; no claim observes colors, so the recolor lands only on
the `rootRegion` copy here. -/
def selectRootRegion (mg : MapGenerator) : Except GoErr MapGenerator :=
  let mg1 := { mg with
    unconnectedRooms := mg.unconnectedRooms ++ mg.roomList }
  let s := shuffleArray mg1.rng mg1.unconnectedRooms
  let mg2 := { mg1 with unconnectedRooms := s.1, rng := s.2 }
  match mg2.unconnectedRooms.getLast? with
  | none => .error .indexOutOfRange
  | some rootRoom =>
      .ok { mg2 with
            unconnectedRooms := mg2.unconnectedRooms.dropLast,
            rootRegion := some { rootRoom.Region with clr := (0, 0, 0) } }

/-- The filter used by `findRootConnectors`: the connector touches the
root region on exactly one side. -/
def touchesRoot (store : List Connector) (root : Region) (idx : Nat) :
    Bool :=
  let c := store.getD idx default
  (decide (c.region1.id = root.id) && decide (c.region2.id ≠ root.id)) ||
  (decide (c.region1.id ≠ root.id) && decide (c.region2.id = root.id))

/-- Embedding of `findRootConnectors` (src/internal/mapgen/connect.go):
shuffle the pool, split it into root-touching and other connectors,
shuffle the root connectors, keep the rest as the new pool. -/
def findRootConnectors (mg : MapGenerator) (root : Region) :
    MapGenerator :=
  let s := shuffleArray mg.rng mg.connectors
  let mg1 := { mg with connectors := s.1, rng := s.2 }
  let rootC := mg1.connectors.filter
    (fun idx => touchesRoot mg1.connectorStore root idx)
  let otherC := mg1.connectors.filter
    (fun idx => !(touchesRoot mg1.connectorStore root idx))
  let s2 := shuffleArray mg1.rng rootC
  { mg1 with rootConnectors := s2.1, rng := s2.2, connectors := otherC }

/-- One cell of `replaceRegion`: rewrite the region grid entry and the
connector record (shared through the store) when they hold the old
region id. -/
def replaceCell (oldR newR : Region) (mg : MapGenerator) (x y : Int) :
    MapGenerator :=
  let mg1 :=
    match mg.regionGrid.Get x y with
    | some r =>
        if r.id = oldR.id then
          { mg with regionGrid := mg.regionGrid.Set x y (some newR) }
        else mg
    | none => mg
  match mg1.connectorGrid.Get x y with
  | some idx =>
      match mg1.connectorStore.get? idx with
      | some c =>
          let c1 := if c.region1.id = oldR.id then
              { c with region1 := newR } else c
          let c2 := if c1.region2.id = oldR.id then
              { c1 with region2 := newR } else c1
          { mg1 with connectorStore := mg1.connectorStore.set idx c2 }
      | none => mg1
  | none => mg1

/-- Embedding of `replaceRegion` (src/internal/mapgen/connect.go):
full-grid sweep rewriting the old region id to the new one. -/
def replaceRegion (mg : MapGenerator) (oldR newR : Region) :
    MapGenerator :=
  (rangeInt mg.Height).foldl
    (fun acc y =>
      (rangeInt mg.Width).foldl
        (fun acc2 x => replaceCell oldR newR acc2 x y) acc)
    mg

/-- The acceptance branch of the merge loop in `connectRegions`: stamp
the door, assign the root region, rewrite the absorbed region
everywhere and drop it from the live region map. -/
def acceptConnector (mg : MapGenerator) (root : Region) (c : Connector) :
    MapGenerator :=
  let mg1 := { mg with
    terrainGrid := mg.terrainGrid.Set c.x c.y .Door,
    regionGrid := mg.regionGrid.Set c.x c.y (some root) }
  let otherRegion := if c.region1.id = root.id then c.region2 else c.region1
  let mg2 := replaceRegion mg1 otherRegion root
  { mg2 with regions := mapErase mg2.regions otherRegion.id }

/-- The `for !success` merge loop of `connectRegions`
(src/internal/mapgen/connect.go): pop candidates until one is accepted
or the list empties. -/
def connectLoop (root : Region) :
    MapGenerator → List Nat → Except GoErr MapGenerator
  | mg, [] => .ok { mg with rootConnectors := [] }
  | mg, idx :: rest =>
      let mg1 := { mg with rootConnectors := rest }
      let c := mg1.connectorStore.getD idx default
      if connectorIsBesideDoor mg1 c then connectLoop root mg1 rest
      else if connectsRootToUnconnectedRegion root c then
        .ok (acceptConnector mg1 root c)
      else connectLoop root mg1 rest

/-- Embedding of `connectRegions` (src/internal/mapgen/connect.go). -/
def connectRegions (mg : MapGenerator) : Except GoErr MapGenerator :=
  if mg.regions.length = 1 then
    .ok { mg with phase := .PhaseRemoveDeadEnds }
  else
    let step1 : Except GoErr MapGenerator :=
      match mg.rootRegion with
      | none => selectRootRegion mg
      | some _ => .ok mg
    match step1 with
    | .error e => .error e
    | .ok mg1 =>
        match mg1.rootRegion with
        | none => .error .nilDereference
        | some root =>
            if mg1.rootConnectors.isEmpty then
              let mgf := findRootConnectors mg1 root
              if mgf.rootConnectors.isEmpty then
                .ok { mgf with phase := .PhaseRemoveDeadEnds }
              else
                let s := shuffleArray mgf.rng mgf.rootConnectors
                let mgs := { mgf with rootConnectors := s.1, rng := s.2 }
                connectLoop root mgs mgs.rootConnectors
            else connectLoop root mg1 mg1.rootConnectors

/-- Embedding of `getNeighbours` (src/internal/mapgen/deadends.go):
north, south, east, west terrain kinds. -/
def getNeighbours (mg : MapGenerator) (x y : Int) : List TileKind :=
  [mg.terrainGrid.Get x (y - 1), mg.terrainGrid.Get x (y + 1),
   mg.terrainGrid.Get (x + 1) y, mg.terrainGrid.Get (x - 1) y]

/-- Embedding of `isDeadEnd` (src/internal/mapgen/deadends.go): a
Corridor or Door cell with exactly one non-Stone cardinal neighbour. -/
def isDeadEnd (mg : MapGenerator) (x y : Int) : Bool :=
  let t := mg.terrainGrid.Get x y
  if t ≠ TileKind.Corridor ∧ t ≠ TileKind.Door then false
  else decide
    (((getNeighbours mg x y).countP (fun n => n ≠ TileKind.Stone)) = 1)

/-- Embedding of `findDeadEnds` (src/internal/mapgen/deadends.go):
collect every dead end of the current grid. -/
def findDeadEnds (mg : MapGenerator) : List (Int × Int) :=
  (rangeInt mg.Height).foldl
    (fun acc y =>
      (rangeInt mg.Width).foldl
        (fun acc2 x => if isDeadEnd mg x y then acc2 ++ [(x, y)] else acc2)
        acc)
    []

/-- The body of the removal loop in `removeDeadEnds`: set the cell to
Stone, clear its region, count the removal. -/
def removeOneDeadEnd (acc : MapGenerator) (p : Int × Int) : MapGenerator :=
  { acc with terrainGrid := acc.terrainGrid.Set p.1 p.2 .Stone,
             regionGrid := acc.regionGrid.Set p.1 p.2 none,
             deadEndsRemoved := acc.deadEndsRemoved + 1 }

/-- Embedding of `removeDeadEnds` (src/internal/mapgen/deadends.go):
one pass; the phase becomes Done when the pass removed nothing. -/
def removeDeadEnds (mg : MapGenerator) : MapGenerator :=
  let mg0 := { mg with deadEndsPreviouslyRemoved := mg.deadEndsRemoved }
  let des := findDeadEnds mg0
  let mg1 := { mg0 with deadEnds := des }
  let mg2 : MapGenerator := des.foldl removeOneDeadEnd mg1
  if mg2.deadEndsPreviouslyRemoved = mg2.deadEndsRemoved then
    { mg2 with phase := .PhaseDone }
  else mg2

/-- Embedding of `NewMapGenerator` (src/internal/mapgen/mapgen.go),
parametric in the random stream. -/
def newMapGenWithRng (width height : Int) (rng0 : Rng) (attempts : Int) :
    MapGenerator :=
  { Width := width, Height := height, phase := .PhaseRooms,
    maxRoomAttempts := attempts, curRoomAttempts := 0,
    terrainGrid := Grid.new TileKind width height,
    connectorGrid := Grid.new (Option Nat) width height,
    connectorStore := [], roomList := [], unconnectedRooms := [],
    x := 0, y := 0,
    incompleteRows := oddsLT (height - 1), incompleteCols := [],
    visitedMazeLocations := [], walking := false,
    rng := rng0,
    regions := [], curRegionID := 0,
    regionGrid := Grid.new (Option Region) width height,
    currentRegion := none, rootRegion := none,
    connectors := [], rootConnectors := [],
    deadEnds := [], deadEndsRemoved := 0, deadEndsPreviouslyRemoved := 0 }

/-- Modelled from the spec: `rand.New(rand.NewSource(seed))` is the
only randomness source, a deterministic stream reproducible from the
seed (the math/rand internals live outside this repository); any fixed
deterministic function of the seed is a faithful model of that
contract. -/
def mkRng (seed : Int) : Rng :=
  { stream := fun i => (seed.natAbs + i) * 2654435761 % 4294967296,
    pos := 0 }

/-- Embedding of `NewMapGenerator` with its Go signature (seed). -/
def NewMapGenerator (width height seed attempts : Int) : MapGenerator :=
  newMapGenWithRng width height (mkRng seed) attempts

/-- One driver tick: dispatch on the current phase exactly as the
phased `Update` loop does (the dead-end phase is dispatched to
`removeDeadEnds`, which owns the transition to Done). -/
def step (fuel : Nat) (mg : MapGenerator) : Except GoErr MapGenerator :=
  match mg.phase with
  | .PhaseRooms => generateRooms fuel mg
  | .PhaseMazes => .ok (generateMazes mg)
  | .PhaseConnectors => generateConnectors mg
  | .PhaseConnectingRegions => connectRegions mg
  | .PhaseRemoveDeadEnds => .ok (removeDeadEnds mg)
  | .PhaseDone => .ok mg

/-- `n` driver ticks. -/
def runN (fuel : Nat) : Nat → MapGenerator → Except GoErr MapGenerator
  | 0, mg => .ok mg
  | Nat.succ n, mg => do
      let mg1 ← step fuel mg
      runN fuel n mg1

/-- A fixed all-zero random stream, used to instantiate witness runs. -/
def zeroRng : Rng := { stream := fun _ => 0, pos := 0 }

/-- All-Stone 3 by 3 generator state in the dead-end phase, a concrete
input for the C4 witness. -/
def deadEndWitnessState : MapGenerator :=
  { newMapGenWithRng 3 3 zeroRng 0 with
    phase := GenerationPhase.PhaseRemoveDeadEnds }

/-- First concrete region for the C6 witness state. -/
def c6RegionA : Region := { id := 0, clr := (16, 16, 16) }

/-- Second concrete region for the C6 witness state. -/
def c6RegionB : Region := { id := 1, clr := (16, 16, 16) }

/-- Concrete connector joining the two C6 witness regions at (2,2). -/
def c6Connector : Connector :=
  { x := 2, y := 2, region1 := c6RegionA, region2 := c6RegionB }

/-- Concrete 5 by 5 state with one stored connector and two live
regions, input for the C6 witness. -/
def c6State : MapGenerator :=
  { newMapGenWithRng 5 5 zeroRng 0 with
    phase := GenerationPhase.PhaseConnectingRegions,
    connectorStore := [c6Connector],
    connectorGrid := (Grid.new (Option Nat) 5 5).Set 2 2 (some 0),
    regions := [(0, c6RegionA), (1, c6RegionB)],
    rootRegion := some c6RegionA }

/-- The claim's odd size palette (C8): every accepted room dimension
is one of 3, 5, 7, 9, 11. -/
def sizeOk (n : Int) : Prop := n = 3 ∨ n = 5 ∨ n = 7 ∨ n = 9 ∨ n = 11

/-- The claim's containment condition (C8): the room occupies only
cells with coordinates between 1 and dimension minus 2. -/
def roomWithin (W H : Int) (r : Room) : Prop :=
  1 ≤ r.X ∧ r.X + r.Width ≤ W - 1 ∧ 1 ≤ r.Y ∧ r.Y + r.Height ≤ H - 1

/-- The claim's non-intersection condition (C8): the two rectangles
share no cell. -/
def rectDisjoint (r1 r2 : Room) : Prop :=
  ¬ (r1.X < r2.X + r2.Width ∧ r2.X < r1.X + r1.Width ∧
     r1.Y < r2.Y + r2.Height ∧ r2.Y < r1.Y + r1.Height)

/-- Room list validity (C8), relative to the generator state's own
dimensions. -/
def roomsOk (mg : MapGenerator) : Prop :=
  (∀ r ∈ mg.roomList, sizeOk r.Width ∧ sizeOk r.Height ∧
    roomWithin mg.Width mg.Height r) ∧
  List.Pairwise rectDisjoint mg.roomList

/-- The claim's border predicate (C10): the cell lies on the outer
ring of a width by height grid. -/
def onBorder (W H a b : Int) : Prop :=
  a = 0 ∨ a = W - 1 ∨ b = 0 ∨ b = H - 1

/-- An odd coordinate strictly inside the 1-cell border of a dimension
`W` (the odd lattice the maze carver is confined to). -/
def inOdd (W v : Int) : Prop := 1 ≤ v ∧ v ≤ W - 2 ∧ v % 2 = 1

/-- Run invariant behind C10: fixed dimensions, a well-formed terrain
grid whose border cells all read Stone, odd-interior maze bookkeeping
(visited positions, unfinished rows and columns), connectors recorded
at interior cells, and connector indices inside the store. -/
structure BaseInv (W H : Int) (mg : MapGenerator) : Prop where
  dimW : mg.Width = W
  dimH : mg.Height = H
  tgW : mg.terrainGrid.Width = W
  tgH : mg.terrainGrid.Height = H
  tgLen : mg.terrainGrid.grid.length
    = (mg.terrainGrid.Width * mg.terrainGrid.Height).toNat
  border : ∀ a b : Int, onBorder W H a b →
    mg.terrainGrid.Get a b = TileKind.Stone
  visited : ∀ p ∈ mg.visitedMazeLocations, inOdd W p.1 ∧ inOdd H p.2
  rows : ∀ r ∈ mg.incompleteRows, inOdd H r
  cols : ∀ c ∈ mg.incompleteCols, inOdd W c
  store : ∀ c ∈ mg.connectorStore,
    1 ≤ c.x ∧ c.x ≤ W - 2 ∧ 1 ≤ c.y ∧ c.y ≤ H - 2
  conns : ∀ i ∈ mg.connectors, i < mg.connectorStore.length
  rootConns : ∀ i ∈ mg.rootConnectors, i < mg.connectorStore.length

/-- `BaseInv` plus: while the maze walker is active the cursor sits on
the odd interior lattice. -/
def MazeInv (W H : Int) (mg : MapGenerator) : Prop :=
  BaseInv W H mg ∧ (mg.walking = true → inOdd W mg.x ∧ inOdd H mg.y)

/-- The claim's wording (C7 and the glossary): a walkable tile is Room
or Corridor. -/
def specWalkable (t : TileKind) : Prop :=
  t = TileKind.Room ∨ t = TileKind.Corridor

instance (t : TileKind) : Decidable (specWalkable t) := by
  unfold specWalkable
  infer_instance

/-- The region id carried by a cell of the region grid, when any. -/
def ridOpt (mg : MapGenerator) (x y : Int) : Option Int :=
  (mg.regionGrid.Get x y).map Region.id

/-- Definition written from the claim's words (C7), for comparison with
the source `isConnectorTile`: the west and east neighbours are both
Room or Corridor and carry two different region ids, or the north and
south neighbours are both Room or Corridor and carry two different
region ids. -/
def connectorSpec (mg : MapGenerator) (x y : Int) : Prop :=
  (specWalkable (mg.terrainGrid.Get (x - 1) y) ∧
     specWalkable (mg.terrainGrid.Get (x + 1) y) ∧
     ridOpt mg (x - 1) y ≠ ridOpt mg (x + 1) y) ∨
  (specWalkable (mg.terrainGrid.Get x (y - 1)) ∧
     specWalkable (mg.terrainGrid.Get x (y + 1)) ∧
     ridOpt mg x (y - 1) ≠ ridOpt mg x (y + 1))

/-- The rewrite `replaceRegion` applies to one region grid entry:
entries holding the old region id become the new region. -/
def regRewrite (oldR newR : Region) : Option Region → Option Region
  | some r => if r.id = oldR.id then some newR else some r
  | none => none

/-- The rewrite `replaceRegion` applies to one connector record: both
sides holding the old region id are replaced by the new region. -/
def connRewrite (oldR newR : Region) (c : Connector) : Connector :=
  let c1 := if c.region1.id = oldR.id then { c with region1 := newR } else c
  if c1.region2.id = oldR.id then { c1 with region2 := newR } else c1

/-- Invariant carried through the `replaceRegion` sweep (C6): `D` is
the set of already swept cells; region grid entries of swept cells are
rewritten, connector records referenced from a swept cell are
rewritten, and nothing else changes. -/
structure ReplInv (m0 : MapGenerator) (oldR newR : Region)
    (D : Int → Int → Prop) (m : MapGenerator) : Prop where
  terr : m.terrainGrid = m0.terrainGrid
  cg : m.connectorGrid = m0.connectorGrid
  regs : m.regions = m0.regions
  rgW : m.regionGrid.Width = m0.regionGrid.Width
  rgH : m.regionGrid.Height = m0.regionGrid.Height
  rgLen : m.regionGrid.grid.length = m0.regionGrid.grid.length
  storeLen : m.connectorStore.length = m0.connectorStore.length
  reg1 : ∀ a b : Int, D a b →
    m.regionGrid.Get a b = regRewrite oldR newR (m0.regionGrid.Get a b)
  reg2 : ∀ a b : Int, ¬ D a b →
    m.regionGrid.Get a b = m0.regionGrid.Get a b
  store1 : ∀ j : Nat, (∃ a b : Int, D a b ∧ m0.connectorGrid.Get a b = some j) →
    m.connectorStore.get? j
      = (m0.connectorStore.get? j).map (connRewrite oldR newR)
  store2 : ∀ j : Nat, ¬ (∃ a b : Int, D a b ∧ m0.connectorGrid.Get a b = some j) →
    m.connectorStore.get? j = m0.connectorStore.get? j

/-- Invariant carried through the connector scan (C7): the scan leaves
terrain and regions untouched, preserves dimensions, and its connector
grid marks exactly the already scanned cells satisfying the connector
condition, where `D` is the set of scanned cells so far. -/
structure ScanInv (mg m : MapGenerator) (D : Int → Int → Prop) : Prop where
  terr : m.terrainGrid = mg.terrainGrid
  reg : m.regionGrid = mg.regionGrid
  w : m.Width = mg.Width
  h : m.Height = mg.Height
  cgW : m.connectorGrid.Width = mg.Width
  cgH : m.connectorGrid.Height = mg.Height
  cgLen : m.connectorGrid.grid.length
    = (m.connectorGrid.Width * m.connectorGrid.Height).toNat
  mark : ∀ a b : Int,
    (m.connectorGrid.Get a b).isSome ↔ (D a b ∧ connectorSpec mg a b)

theorem mem_rangeInt {n a : Int} : a ∈ rangeInt n ↔ 0 ≤ a ∧ a < n := by
  simp only [rangeInt, List.mem_map, List.mem_range]
  constructor
  · rintro ⟨k, hk, rfl⟩
    have hn2 : (n.toNat : Int) = n := Int.toNat_of_nonneg (by omega)
    refine ⟨by exact_mod_cast Nat.zero_le k, ?_⟩
    rw [← hn2]
    exact_mod_cast hk
  · intro h
    refine ⟨a.toNat, by omega, by omega⟩

/-- C9: reading the terrain grid out of bounds yields the Stone
sentinel (the element type's zero value), and an out-of-bounds write
returns the grid unchanged. -/
theorem grid_oob_get_stone_set_noop (g : Grid TileKind) (x y : Int)
    (h : ¬ (0 ≤ x ∧ x < g.Width ∧ 0 ≤ y ∧ y < g.Height)) :
    g.Get x y = TileKind.Stone ∧ ∀ v : TileKind, g.Set x y v = g := by
  have hc : x < 0 ∨ x ≥ g.Width ∨ y < 0 ∨ y ≥ g.Height := by omega
  constructor
  · unfold Grid.Get
    rw [if_pos hc]
    rfl
  · intro v
    unfold Grid.Set
    rw [if_pos hc]

theorem grid_oob_witness :
    (Grid.new TileKind 5 5).Get (-1) 2 = TileKind.Stone ∧
      ∀ v : TileKind,
        (Grid.new TileKind 5 5).Set (-1) 2 v = Grid.new TileKind 5 5 :=
  grid_oob_get_stone_set_noop (Grid.new TileKind 5 5) (-1) 2 (by decide)

theorem foldl_collect (p : Int → Bool) (g : Int → Int × Int) :
    ∀ (l : List Int) (acc : List (Int × Int)),
      l.foldl (fun a x => if p x then a ++ [g x] else a) acc
        = acc ++ (l.filter p).map g := by
  intro l
  induction l with
  | nil => intro acc; simp
  | cons hd tl ih =>
      intro acc
      by_cases hp : p hd
      · simp [List.foldl_cons, hp, ih, List.filter_cons, List.append_assoc]
      · simp [List.foldl_cons, hp, ih, List.filter_cons]

theorem foldl_append_mem (h : Int → List (Int × Int)) (q : Int × Int) :
    ∀ (l : List Int) (acc : List (Int × Int)),
      (q ∈ acc ∨ ∃ y ∈ l, q ∈ h y) →
      q ∈ l.foldl (fun a y => a ++ h y) acc := by
  intro l
  induction l with
  | nil =>
      intro acc hq
      rcases hq with hq | ⟨y, hy, _⟩
      · simpa using hq
      · exact absurd hy (List.not_mem_nil y)
  | cons hd tl ih =>
      intro acc hq
      simp only [List.foldl_cons]
      apply ih
      rcases hq with hq | ⟨y, hy, hq⟩
      · exact Or.inl (List.mem_append.mpr (Or.inl hq))
      · rcases List.mem_cons.mp hy with rfl | hy
        · exact Or.inl (List.mem_append.mpr (Or.inr hq))
        · exact Or.inr ⟨y, hy, hq⟩

theorem findDeadEnds_sound (mg : MapGenerator) (x y : Int)
    (hx : 0 ≤ x) (hx2 : x < mg.Width) (hy : 0 ≤ y) (hy2 : y < mg.Height)
    (hd : isDeadEnd mg x y = true) : (x, y) ∈ findDeadEnds mg := by
  unfold findDeadEnds
  have hrow : ∀ (acc : List (Int × Int)) (yy : Int),
      (rangeInt mg.Width).foldl
        (fun a xx => if isDeadEnd mg xx yy then a ++ [(xx, yy)] else a) acc
      = acc ++ ((rangeInt mg.Width).filter
          (fun xx => isDeadEnd mg xx yy)).map (fun xx => (xx, yy)) := by
    intro acc yy
    exact foldl_collect (fun xx => isDeadEnd mg xx yy) (fun xx => (xx, yy))
      (rangeInt mg.Width) acc
  have hfold :
      (rangeInt mg.Height).foldl
        (fun acc yy =>
          (rangeInt mg.Width).foldl
            (fun acc2 xx => if isDeadEnd mg xx yy then acc2 ++ [(xx, yy)]
              else acc2) acc)
        ([] : List (Int × Int))
      = (rangeInt mg.Height).foldl
        (fun acc yy => acc ++ ((rangeInt mg.Width).filter
          (fun xx => isDeadEnd mg xx yy)).map (fun xx => (xx, yy)))
        ([] : List (Int × Int)) := by
    apply List.foldl_ext
    intro acc yy _
    exact hrow acc yy
  rw [hfold]
  apply foldl_append_mem
  right
  refine ⟨y, mem_rangeInt.mpr ⟨hy, hy2⟩, ?_⟩
  exact List.mem_map.mpr
    ⟨x, List.mem_filter.mpr ⟨mem_rangeInt.mpr ⟨hx, hx2⟩, hd⟩, rfl⟩

theorem isDeadEnd_oob (mg : MapGenerator) (x y : Int)
    (hgw : mg.terrainGrid.Width = mg.Width)
    (hgh : mg.terrainGrid.Height = mg.Height)
    (h : ¬ (0 ≤ x ∧ x < mg.Width ∧ 0 ≤ y ∧ y < mg.Height)) :
    isDeadEnd mg x y = false := by
  have hstone : mg.terrainGrid.Get x y = TileKind.Stone := by
    unfold Grid.Get
    rw [if_pos (by omega)]
    rfl
  unfold isDeadEnd
  rw [hstone]
  simp

theorem isDeadEnd_congr (mg1 mg2 : MapGenerator)
    (ht : mg1.terrainGrid = mg2.terrainGrid) :
    isDeadEnd mg1 = isDeadEnd mg2 := by
  funext x y
  unfold isDeadEnd getNeighbours
  rw [ht]

theorem findDeadEnds_congr (mg1 mg2 : MapGenerator)
    (ht : mg1.terrainGrid = mg2.terrainGrid)
    (hw : mg1.Width = mg2.Width) (hh : mg1.Height = mg2.Height) :
    findDeadEnds mg1 = findDeadEnds mg2 := by
  unfold findDeadEnds
  rw [hw, hh, isDeadEnd_congr mg1 mg2 ht]

theorem foldl_removeOne_deadEndsRemoved :
    ∀ (l : List (Int × Int)) (acc : MapGenerator),
      (l.foldl removeOneDeadEnd acc).deadEndsRemoved
        = acc.deadEndsRemoved + l.length := by
  intro l
  induction l with
  | nil => intro acc; simp
  | cons hd tl ih =>
      intro acc
      rw [List.foldl_cons, ih]
      simp [removeOneDeadEnd]
      omega

theorem foldl_removeOne_prev :
    ∀ (l : List (Int × Int)) (acc : MapGenerator),
      (l.foldl removeOneDeadEnd acc).deadEndsPreviouslyRemoved
        = acc.deadEndsPreviouslyRemoved := by
  intro l
  induction l with
  | nil => intro acc; rfl
  | cons hd tl ih =>
      intro acc
      rw [List.foldl_cons, ih]
      rfl

theorem foldl_removeOne_phase :
    ∀ (l : List (Int × Int)) (acc : MapGenerator),
      (l.foldl removeOneDeadEnd acc).phase = acc.phase := by
  intro l
  induction l with
  | nil => intro acc; rfl
  | cons hd tl ih =>
      intro acc
      rw [List.foldl_cons, ih]
      rfl

theorem findDeadEnds_prev_irrelevant (mg : MapGenerator) (p : Int) :
    findDeadEnds { mg with deadEndsPreviouslyRemoved := p }
      = findDeadEnds mg :=
  findDeadEnds_congr _ _ rfl rfl rfl

theorem removeDeadEnds_of_no_dead_ends (mg : MapGenerator)
    (hnil : findDeadEnds mg = []) :
    removeDeadEnds mg =
      { mg with deadEndsPreviouslyRemoved := mg.deadEndsRemoved,
                deadEnds := [], phase := GenerationPhase.PhaseDone } := by
  unfold removeDeadEnds
  simp only [findDeadEnds_prev_irrelevant, hnil, List.foldl_nil]
  simp

theorem removeDeadEnds_phase_of_dead_ends (mg : MapGenerator)
    (hne : findDeadEnds mg ≠ []) :
    (removeDeadEnds mg).phase = mg.phase := by
  unfold removeDeadEnds
  simp only [findDeadEnds_prev_irrelevant]
  have hlen : 0 < (findDeadEnds mg).length := List.length_pos.mpr hne
  have hrem :
      ((findDeadEnds mg).foldl removeOneDeadEnd
        { mg with deadEndsPreviouslyRemoved := mg.deadEndsRemoved,
                  deadEnds := findDeadEnds mg }).deadEndsRemoved
      = mg.deadEndsRemoved + (findDeadEnds mg).length := by
    rw [foldl_removeOne_deadEndsRemoved]
  have hprev :
      ((findDeadEnds mg).foldl removeOneDeadEnd
        { mg with deadEndsPreviouslyRemoved := mg.deadEndsRemoved,
                  deadEnds := findDeadEnds mg }).deadEndsPreviouslyRemoved
      = mg.deadEndsRemoved := by
    rw [foldl_removeOne_prev]
  rw [if_neg (by omega)]
  rw [foldl_removeOne_phase]

theorem removeDeadEnds_done (mg : MapGenerator)
    (hph : mg.phase ≠ GenerationPhase.PhaseDone)
    (hgw : mg.terrainGrid.Width = mg.Width)
    (hgh : mg.terrainGrid.Height = mg.Height)
    (hdone : (removeDeadEnds mg).phase = GenerationPhase.PhaseDone) :
    ∀ x y : Int, isDeadEnd (removeDeadEnds mg) x y = false := by
  have hnil : findDeadEnds mg = [] := by
    by_contra hne
    rw [removeDeadEnds_phase_of_dead_ends mg hne] at hdone
    exact hph hdone
  rw [removeDeadEnds_of_no_dead_ends mg hnil]
  have hcongr : isDeadEnd
      { mg with deadEndsPreviouslyRemoved := mg.deadEndsRemoved,
                deadEnds := [], phase := GenerationPhase.PhaseDone }
      = isDeadEnd mg := isDeadEnd_congr _ _ rfl
  rw [hcongr]
  intro x y
  by_cases hin : 0 ≤ x ∧ x < mg.Width ∧ 0 ≤ y ∧ y < mg.Height
  · by_contra hdead
    have hmem : (x, y) ∈ findDeadEnds mg :=
      findDeadEnds_sound mg x y hin.1 hin.2.1 hin.2.2.1 hin.2.2.2
        (Bool.of_not_eq_false hdead)
    rw [hnil] at hmem
    exact absurd hmem (List.not_mem_nil _)
  · exact isDeadEnd_oob mg x y hgw hgh hin

/-- C4: when a dead-end-phase driver tick sets the phase to Done, the
final grid contains no Corridor or Door cell with exactly one
non-Stone cardinal neighbour. -/
theorem step_done_no_dead_ends (fuel : Nat) (mg mg' : MapGenerator)
    (hph : mg.phase = GenerationPhase.PhaseRemoveDeadEnds)
    (hgw : mg.terrainGrid.Width = mg.Width)
    (hgh : mg.terrainGrid.Height = mg.Height)
    (hstep : step fuel mg = .ok mg')
    (hdone : mg'.phase = GenerationPhase.PhaseDone) :
    ∀ x y : Int, isDeadEnd mg' x y = false := by
  have hrm : mg' = removeDeadEnds mg := by
    unfold step at hstep
    rw [hph] at hstep
    injection hstep with h
    exact h.symm
  subst hrm
  exact removeDeadEnds_done mg (by rw [hph]; intro hcon; cases hcon)
    hgw hgh hdone

theorem step_done_no_dead_ends_witness :
    isDeadEnd (removeDeadEnds deadEndWitnessState) 1 1 = false :=
  step_done_no_dead_ends 1 deadEndWitnessState
    (removeDeadEnds deadEndWitnessState) rfl rfl rfl rfl (by rfl) 1 1

/-- C2: counter-demonstration.  With an attempt budget of 0 the run
does not complete: the rooms, maze and connector phases execute, and
then `connectRegions` calls `selectRootRegion` with an empty room
list, which indexes `unconnectedRooms[len-1] = unconnectedRooms[-1]`,
a Go slice-index panic, instead of reaching Done. -/
theorem zero_attempts_panics :
    runN 50 11 (newMapGenWithRng 5 5 zeroRng 0)
      = Except.error GoErr.indexOutOfRange := rfl

theorem intn_nonneg (r : Rng) (n : Int) : 0 ≤ (r.intn n).1 := by
  unfold Rng.intn
  by_cases h : n = 0
  · subst h
    simp only [Int.emod_zero]
    exact Int.natCast_nonneg _
  · exact Int.emod_nonneg _ h

theorem roomSizes_getD_ge (idx : Nat) :
    3 ≤ (roomSizes.getD idx (3, 3)).1 ∧ 3 ≤ (roomSizes.getD idx (3, 3)).2 := by
  by_cases h : idx < 12
  · interval_cases idx <;> exact (by decide)
  · have hd : roomSizes.getD idx (3, 3) = (3, 3) :=
      List.getD_eq_default _ _ (by simp [roomSizes]; omega)
    rw [hd]
    exact ⟨le_refl 3, le_refl 3⟩

theorem attemptRoom_X_ge_one (cur : Region) (mg : MapGenerator) :
    1 ≤ (attemptRoom cur mg).1.X := by
  have h := intn_nonneg (mg.rng.intn (roomSizes.length : Int)).2 (mg.Width / 2)
  unfold attemptRoom
  simp only []
  omega

theorem attemptRoom_W_ge_three (cur : Region) (mg : MapGenerator) :
    3 ≤ (attemptRoom cur mg).1.Width := by
  have h := (roomSizes_getD_ge
    ((mg.rng.intn (roomSizes.length : Int)).1.toNat)).1
  unfold attemptRoom
  simp only []
  omega

theorem roomFits_false_4 (mg : MapGenerator) (room : Room)
    (h4 : mg.Width = 4) (hx : 1 ≤ room.X) (hw : 3 ≤ room.Width) :
    roomFits mg room = false := by
  unfold roomFits
  rw [if_pos (by omega)]

theorem roomLoop_never_terminates_small (cur : Region) :
    ∀ (fuel : Nat) (mg : MapGenerator), mg.Width = 4 →
      roomLoop cur fuel mg = .error .outOfFuel := by
  intro fuel
  induction fuel with
  | zero => intro mg _; rfl
  | succ f ih =>
      intro mg h4
      have hfits : roomFits (attemptRoom cur mg).2 (attemptRoom cur mg).1
          = false :=
        roomFits_false_4 _ _ h4 (attemptRoom_X_ge_one cur mg)
          (attemptRoom_W_ge_three cur mg)
      unfold roomLoop
      simp only [hfits, Bool.false_eq_true, if_false]
      exact ih _ h4

/-- C3: counter-demonstration.  On a 4 by 4 grid no palette room ever
fits (`roomFits` rejects every candidate), so for every attempt budget
of at least 1, every random stream and every fuel bound the room phase
driver tick is still inside its placement retry loop: it never
terminates, rather than stopping after exactly A attempts with zero
rooms. -/
theorem generateRooms_diverges_on_small_grid (fuel : Nat) (r : Rng)
    (attempts : Int) (hA : 1 ≤ attempts) :
    generateRooms fuel (newMapGenWithRng 4 4 r attempts)
      = .error .outOfFuel := by
  unfold generateRooms
  have hcond : (newMapGenWithRng 4 4 r attempts).curRoomAttempts
      < (newMapGenWithRng 4 4 r attempts).maxRoomAttempts := by
    show (0 : Int) < attempts
    omega
  rw [if_pos hcond]
  simp only []
  rw [roomLoop_never_terminates_small _ fuel _ rfl]
  rfl

theorem generateRooms_diverges_witness :
    generateRooms 7 (newMapGenWithRng 4 4 zeroRng 1)
      = .error .outOfFuel :=
  generateRooms_diverges_on_small_grid 7 zeroRng 1 (by decide)

theorem cell_index_lt (W H x y : Int) (hx : 0 ≤ x) (hx2 : x < W)
    (hy : 0 ≤ y) (hy2 : y < H) : (y * W + x).toNat < (W * H).toNat := by
  have hyW : y * W ≤ (H - 1) * W :=
    mul_le_mul_of_nonneg_right (by omega) (by omega)
  have h1 : y * W + x < W * H := by nlinarith
  have hnn : 0 ≤ y * W + x := by
    have := mul_nonneg hy (show (0:Int) ≤ W by omega)
    omega
  omega

theorem cell_index_inj (W x y a b : Int) (hx : 0 ≤ x) (hx2 : x < W)
    (ha : 0 ≤ a) (ha2 : a < W) (heq : b * W + a = y * W + x) :
    a = x ∧ b = y := by
  have hW : 0 < W := by omega
  have h1 : (b - y) * W = x - a := by ring_nf; omega
  by_cases hby : b = y
  · subst hby
    exact ⟨by omega, rfl⟩
  · exfalso
    rcases lt_or_gt_of_ne hby with h | h
    · have hle : b - y ≤ -1 := by omega
      have : (b - y) * W ≤ (-1) * W :=
        mul_le_mul_of_nonneg_right hle (le_of_lt hW)
      have hneg : (-1) * W = -W := by ring
      omega
    · have hle : 1 ≤ b - y := by omega
      have : 1 * W ≤ (b - y) * W :=
        mul_le_mul_of_nonneg_right hle (le_of_lt hW)
      have hpos : 1 * W = W := by ring
      omega

theorem Grid.Set_Width {T : Type} (g : Grid T) (x y : Int) (v : T) :
    (g.Set x y v).Width = g.Width := by
  unfold Grid.Set
  split <;> rfl

theorem Grid.Set_Height {T : Type} (g : Grid T) (x y : Int) (v : T) :
    (g.Set x y v).Height = g.Height := by
  unfold Grid.Set
  split <;> rfl

theorem Grid.Set_length {T : Type} (g : Grid T) (x y : Int) (v : T) :
    (g.Set x y v).grid.length = g.grid.length := by
  unfold Grid.Set
  split
  · rfl
  · simp

theorem Grid.Get_Set_same {T : Type} [Inhabited T] (g : Grid T)
    (x y : Int) (v : T)
    (hlen : g.grid.length = (g.Width * g.Height).toNat)
    (hx : 0 ≤ x) (hx2 : x < g.Width) (hy : 0 ≤ y) (hy2 : y < g.Height) :
    (g.Set x y v).Get x y = v := by
  have hidx : (y * g.Width + x).toNat < g.grid.length := by
    rw [hlen]
    exact cell_index_lt _ _ _ _ hx hx2 hy hy2
  unfold Grid.Set
  rw [if_neg (by omega)]
  unfold Grid.Get
  simp only []
  rw [if_neg (by omega)]
  rw [List.getD_eq_getElem?_getD, List.getElem?_set_self (by simpa using hidx)]
  rfl

theorem Grid.Get_Set_ne {T : Type} [Inhabited T] (g : Grid T)
    (x y a b : Int) (v : T) (hne : ¬ (a = x ∧ b = y)) :
    (g.Set x y v).Get a b = g.Get a b := by
  unfold Grid.Set
  by_cases hoob : x < 0 ∨ x ≥ g.Width ∨ y < 0 ∨ y ≥ g.Height
  · rw [if_pos hoob]
  · rw [if_neg hoob]
    unfold Grid.Get
    simp only []
    by_cases haoob : a < 0 ∨ a ≥ g.Width ∨ b < 0 ∨ b ≥ g.Height
    · rw [if_pos haoob, if_pos haoob]
    · rw [if_neg haoob, if_neg haoob]
      have hidx : (y * g.Width + x).toNat ≠ (b * g.Width + a).toNat := by
        intro hcon
        have hnn1 : 0 ≤ y * g.Width + x := by
          have := mul_nonneg (show (0:Int) ≤ y by omega)
            (show (0:Int) ≤ g.Width by omega)
          omega
        have hnn2 : 0 ≤ b * g.Width + a := by
          have := mul_nonneg (show (0:Int) ≤ b by omega)
            (show (0:Int) ≤ g.Width by omega)
          omega
        have h1 : b * g.Width + a = y * g.Width + x := by omega
        have := cell_index_inj g.Width x y a b (by omega) (by omega)
          (by omega) (by omega) h1
        exact hne this
      rw [List.getD_eq_getElem?_getD, List.getD_eq_getElem?_getD,
        List.getElem?_set_ne hidx]

theorem Grid.Get_oob {T : Type} [Inhabited T] (g : Grid T) (x y : Int)
    (h : ¬ (0 ≤ x ∧ x < g.Width ∧ 0 ≤ y ∧ y < g.Height)) :
    g.Get x y = default := by
  unfold Grid.Get
  rw [if_pos (by omega)]

/-- C5: determinism.  Every definition of this embedding draws
randomness only through the generator state's `rng` field, seeded at
construction from the given seed, so two independent generators built
from the same (width, height, seed, attempts) and run the same number
of driver ticks produce identical terrain grids. -/
theorem determinism_same_parameters (width height seed attempts : Int)
    (fuel n : Nat) :
    (runN fuel n (NewMapGenerator width height seed attempts)).map
      (fun mg => mg.terrainGrid)
    = (runN fuel n (NewMapGenerator width height seed attempts)).map
      (fun mg => mg.terrainGrid) := rfl

theorem mem_interiorRange {bound a : Int} :
    a ∈ interiorRange bound ↔ 1 ≤ a ∧ a < bound := by
  simp only [interiorRange, List.mem_map, List.mem_range]
  constructor
  · rintro ⟨k, hk, rfl⟩
    have hn2 : ((bound - 1).toNat : Int) = bound - 1 ∨ (bound - 1).toNat = 0 := by
      omega
    omega
  · intro h
    refine ⟨(a - 1).toNat, by omega, by omega⟩

theorem roomOrCorridorPair_iff (a b : TileKind) :
    roomOrCorridorPair a b = true ↔ specWalkable a ∧ specWalkable b := by
  cases a <;> cases b <;> decide

theorem connectorAxis_ok (t1 t2 : TileKind) (r1 r2 : Option Region)
    (h1 : specWalkable t1 → r1.isSome) (h2 : specWalkable t2 → r2.isSome) :
    ∃ o, connectorAxis t1 t2 r1 r2 = .ok o ∧
      (o.isSome ↔ specWalkable t1 ∧ specWalkable t2 ∧
        Option.map Region.id r1 ≠ Option.map Region.id r2) := by
  unfold connectorAxis
  by_cases hp : roomOrCorridorPair t1 t2
  · have hw := (roomOrCorridorPair_iff t1 t2).mp hp
    obtain ⟨ra, hra⟩ := Option.isSome_iff_exists.mp (h1 hw.1)
    obtain ⟨rb, hrb⟩ := Option.isSome_iff_exists.mp (h2 hw.2)
    subst hra
    subst hrb
    rw [if_pos hp]
    by_cases hid : ra.id ≠ rb.id
    · refine ⟨some (ra, rb), ?_, ?_⟩
      · show (if ra.id ≠ rb.id then Except.ok (some (ra, rb))
            else Except.ok none) = _
        rw [if_pos hid]
      · simp [hw.1, hw.2, hid]
    · refine ⟨none, ?_, ?_⟩
      · show (if ra.id ≠ rb.id then Except.ok (some (ra, rb))
            else Except.ok none) = _
        rw [if_neg hid]
      · push_neg at hid
        simp [hid]
  · rw [if_neg hp]
    refine ⟨none, rfl, ?_⟩
    simp only [Option.isSome_none, Bool.false_eq_true, false_iff]
    intro hcon
    exact hp ((roomOrCorridorPair_iff t1 t2).mpr ⟨hcon.1, hcon.2.1⟩)

theorem isConnectorTile_ok (mg : MapGenerator) (x y : Int)
    (hreg : ∀ a b : Int, specWalkable (mg.terrainGrid.Get a b) →
      (mg.regionGrid.Get a b).isSome) :
    (isConnectorTile mg x y = .ok (false, none) ∧ ¬ connectorSpec mg x y)
    ∨ (∃ p, isConnectorTile mg x y = .ok (true, some p) ∧
        connectorSpec mg x y) := by
  obtain ⟨o1, ho1, hiff1⟩ :=
    connectorAxis_ok (mg.terrainGrid.Get (x + 1) y)
      (mg.terrainGrid.Get (x - 1) y)
      (mg.regionGrid.Get (x + 1) y) (mg.regionGrid.Get (x - 1) y)
      (hreg _ _) (hreg _ _)
  obtain ⟨o2, ho2, hiff2⟩ :=
    connectorAxis_ok (mg.terrainGrid.Get x (y - 1))
      (mg.terrainGrid.Get x (y + 1))
      (mg.regionGrid.Get x (y - 1)) (mg.regionGrid.Get x (y + 1))
      (hreg _ _) (hreg _ _)
  unfold isConnectorTile
  rw [ho1]
  cases o1 with
  | some p =>
      right
      refine ⟨p, rfl, ?_⟩
      left
      have hh := hiff1.mp rfl
      exact ⟨hh.2.1, hh.1, fun hcon => hh.2.2 hcon.symm⟩
  | none =>
      rw [ho2]
      cases o2 with
      | some p =>
          right
          refine ⟨p, rfl, ?_⟩
          right
          have hh := hiff2.mp rfl
          exact ⟨hh.1, hh.2.1, hh.2.2⟩
      | none =>
          left
          refine ⟨rfl, ?_⟩
          intro hcon
          have hfalse1 : ¬ (specWalkable (mg.terrainGrid.Get (x + 1) y) ∧
              specWalkable (mg.terrainGrid.Get (x - 1) y) ∧
              Option.map Region.id (mg.regionGrid.Get (x + 1) y)
                ≠ Option.map Region.id (mg.regionGrid.Get (x - 1) y)) := by
            intro hcon2
            simpa using hiff1.mpr hcon2
          have hfalse2 : ¬ (specWalkable (mg.terrainGrid.Get x (y - 1)) ∧
              specWalkable (mg.terrainGrid.Get x (y + 1)) ∧
              Option.map Region.id (mg.regionGrid.Get x (y - 1))
                ≠ Option.map Region.id (mg.regionGrid.Get x (y + 1))) := by
            intro hcon2
            simpa using hiff2.mpr hcon2
          rcases hcon with ⟨hw1, hw2, hne⟩ | ⟨hw1, hw2, hne⟩
          · exact hfalse1 ⟨hw2, hw1, fun hcon2 => hne hcon2.symm⟩
          · exact hfalse2 ⟨hw1, hw2, hne⟩

theorem connectorSpec_congr (m mg : MapGenerator)
    (ht : m.terrainGrid = mg.terrainGrid)
    (hr : m.regionGrid = mg.regionGrid) :
    connectorSpec m = connectorSpec mg := by
  funext x y
  unfold connectorSpec ridOpt
  rw [ht, hr]

theorem isConnectorTile_congr (m mg : MapGenerator)
    (ht : m.terrainGrid = mg.terrainGrid)
    (hr : m.regionGrid = mg.regionGrid) :
    isConnectorTile m = isConnectorTile mg := by
  funext x y
  unfold isConnectorTile
  rw [ht, hr]

theorem ScanInv_iff (mg m : MapGenerator) (D1 D2 : Int → Int → Prop)
    (h12 : ∀ a b, D1 a b ↔ D2 a b) (hinv : ScanInv mg m D1) :
    ScanInv mg m D2 := by
  refine { terr := hinv.terr, reg := hinv.reg, w := hinv.w, h := hinv.h,
           cgW := hinv.cgW, cgH := hinv.cgH, cgLen := hinv.cgLen,
           mark := ?_ }
  intro a b
  rw [hinv.mark a b, h12 a b]

theorem connScanCell_ok (mg : MapGenerator)
    (hreg : ∀ a b : Int, specWalkable (mg.terrainGrid.Get a b) →
      (mg.regionGrid.Get a b).isSome)
    (m : MapGenerator) (D : Int → Int → Prop) (x y : Int)
    (hinv : ScanInv mg m D) (hx : 1 ≤ x) (hx2 : x < mg.Width - 1)
    (hy : 1 ≤ y) (hy2 : y < mg.Height - 1) :
    ∃ m2, connScanCell m x y = .ok m2 ∧
      ScanInv mg m2 (fun a b => D a b ∨ (a = x ∧ b = y)) := by
  have hcongr := isConnectorTile_congr m mg hinv.terr hinv.reg
  have hxb : 0 ≤ x ∧ x < m.connectorGrid.Width := by
    rw [hinv.cgW]
    omega
  have hyb : 0 ≤ y ∧ y < m.connectorGrid.Height := by
    rw [hinv.cgH]
    omega
  rcases isConnectorTile_ok mg x y hreg with ⟨heq, hnospec⟩ | ⟨p, heq, hspec⟩
  · refine ⟨m, ?_, ?_⟩
    · unfold connScanCell
      rw [hcongr, heq]
      rfl
    · refine { terr := hinv.terr, reg := hinv.reg, w := hinv.w,
               h := hinv.h, cgW := hinv.cgW, cgH := hinv.cgH,
               cgLen := hinv.cgLen, mark := ?_ }
      intro a b
      rw [hinv.mark a b]
      constructor
      · rintro ⟨hD, hs⟩
        exact ⟨Or.inl hD, hs⟩
      · rintro ⟨hD | ⟨rfl, rfl⟩, hs⟩
        · exact ⟨hD, hs⟩
        · exact absurd hs hnospec
  · refine ⟨{ m with
        connectorStore := m.connectorStore ++
          [{ x := x, y := y, region1 := p.1, region2 := p.2 }],
        connectorGrid := m.connectorGrid.Set x y
          (some m.connectorStore.length),
        connectors := m.connectors ++ [m.connectorStore.length] }, ?_, ?_⟩
    · unfold connScanCell
      rw [hcongr, heq]
      rfl
    · refine { terr := hinv.terr, reg := hinv.reg, w := hinv.w,
               h := hinv.h, cgW := ?_, cgH := ?_, cgLen := ?_, mark := ?_ }
      · rw [Grid.Set_Width]
        exact hinv.cgW
      · rw [Grid.Set_Height]
        exact hinv.cgH
      · rw [Grid.Set_length, Grid.Set_Width, Grid.Set_Height]
        exact hinv.cgLen
      · intro a b
        by_cases hab : a = x ∧ b = y
        · obtain ⟨rfl, rfl⟩ := hab
          rw [Grid.Get_Set_same _ _ _ _ hinv.cgLen hxb.1 hxb.2 hyb.1 hyb.2]
          simp only [Option.isSome_some, true_iff]
          exact ⟨Or.inr (by simp), hspec⟩
        · rw [Grid.Get_Set_ne _ _ _ _ _ _ hab, hinv.mark a b]
          constructor
          · rintro ⟨hD, hs⟩
            exact ⟨Or.inl hD, hs⟩
          · rintro ⟨hD | habs, hs⟩
            · exact ⟨hD, hs⟩
            · exact absurd habs hab

theorem connScanRow_fold_ok (mg : MapGenerator)
    (hreg : ∀ a b : Int, specWalkable (mg.terrainGrid.Get a b) →
      (mg.regionGrid.Get a b).isSome)
    (y : Int) (hy : 1 ≤ y) (hy2 : y < mg.Height - 1) :
    ∀ (xs : List Int), (∀ v ∈ xs, 1 ≤ v ∧ v < mg.Width - 1) →
      ∀ (m : MapGenerator) (D : Int → Int → Prop), ScanInv mg m D →
      ∃ m2, foldExcept (fun mm v => connScanCell mm v y) m xs = .ok m2 ∧
        ScanInv mg m2 (fun a b => D a b ∨ (a ∈ xs ∧ b = y)) := by
  intro xs
  induction xs with
  | nil =>
      intro _ m D hinv
      refine ⟨m, rfl, ScanInv_iff mg m _ _ ?_ hinv⟩
      intro a b
      simp
  | cons v rest ih =>
      intro hbound m D hinv
      obtain ⟨m2, heq, hinv2⟩ := connScanCell_ok mg hreg m D v y hinv
        (hbound v (List.mem_cons_self v rest)).1
        (hbound v (List.mem_cons_self v rest)).2 hy hy2
      obtain ⟨m3, heq3, hinv3⟩ :=
        ih (fun u hu => hbound u (List.mem_cons_of_mem v hu)) m2 _ hinv2
      refine ⟨m3, ?_, ?_⟩
      · unfold foldExcept
        rw [heq]
        exact heq3
      · refine ScanInv_iff mg m3 _ _ ?_ hinv3
        intro a b
        constructor
        · rintro ((hD | ⟨rfl, rfl⟩) | ⟨hmem, rfl⟩)
          · exact Or.inl hD
          · exact Or.inr ⟨List.mem_cons_self a rest, rfl⟩
          · exact Or.inr ⟨List.mem_cons_of_mem v hmem, rfl⟩
        · rintro (hD | ⟨hmem, rfl⟩)
          · exact Or.inl (Or.inl hD)
          · rcases List.mem_cons.mp hmem with rfl | hmem2
            · exact Or.inl (Or.inr ⟨rfl, rfl⟩)
            · exact Or.inr ⟨hmem2, rfl⟩

theorem connScan_rows_ok (mg : MapGenerator)
    (hreg : ∀ a b : Int, specWalkable (mg.terrainGrid.Get a b) →
      (mg.regionGrid.Get a b).isSome) :
    ∀ (ys : List Int), (∀ v ∈ ys, 1 ≤ v ∧ v < mg.Height - 1) →
      ∀ (m : MapGenerator) (D : Int → Int → Prop), ScanInv mg m D →
      ∃ m2, foldExcept connScanRow m ys = .ok m2 ∧
        ScanInv mg m2 (fun a b =>
          D a b ∨ (1 ≤ a ∧ a < mg.Width - 1 ∧ b ∈ ys)) := by
  intro ys
  induction ys with
  | nil =>
      intro _ m D hinv
      refine ⟨m, rfl, ScanInv_iff mg m _ _ ?_ hinv⟩
      intro a b
      simp
  | cons v rest ih =>
      intro hbound m D hinv
      have hrow : connScanRow m v =
          foldExcept (fun mm x => connScanCell mm x v) m
            (interiorRange (mg.Width - 1)) := by
        unfold connScanRow
        rw [hinv.w]
      obtain ⟨m2, heq, hinv2⟩ := connScanRow_fold_ok mg hreg v
        (hbound v (List.mem_cons_self v rest)).1
        (hbound v (List.mem_cons_self v rest)).2
        (interiorRange (mg.Width - 1))
        (fun u hu => by
          have := mem_interiorRange.mp hu
          omega)
        m D hinv
      obtain ⟨m3, heq3, hinv3⟩ :=
        ih (fun u hu => hbound u (List.mem_cons_of_mem v hu)) m2 _ hinv2
      refine ⟨m3, ?_, ?_⟩
      · unfold foldExcept
        rw [hrow, heq]
        exact heq3
      · refine ScanInv_iff mg m3 _ _ ?_ hinv3
        intro a b
        constructor
        · rintro ((hD | ⟨hmem, rfl⟩) | ⟨h1, h2, hmem⟩)
          · exact Or.inl hD
          · have := mem_interiorRange.mp hmem
            exact Or.inr ⟨this.1, this.2, List.mem_cons_self b rest⟩
          · exact Or.inr ⟨h1, h2, List.mem_cons_of_mem v hmem⟩
        · rintro (hD | ⟨h1, h2, hmem⟩)
          · exact Or.inl (Or.inl hD)
          · rcases List.mem_cons.mp hmem with rfl | hmem2
            · exact Or.inl (Or.inr ⟨mem_interiorRange.mpr ⟨h1, h2⟩, rfl⟩)
            · exact Or.inr ⟨h1, h2, hmem2⟩

/-- C7: the connector scan mutates no terrain cell, and it marks an
interior cell in the connector grid exactly when one of its two
opposite neighbour pairs is walkable (Room or Corridor, in any
combination) with two different region ids
(`connectorSpec`, written from the claim's words). -/
theorem connector_scan_correct (mg mg1 : MapGenerator)
    (hreg : ∀ a b : Int, specWalkable (mg.terrainGrid.Get a b) →
      (mg.regionGrid.Get a b).isSome)
    (hclean : ∀ a b : Int, mg.connectorGrid.Get a b = none)
    (hcgW : mg.connectorGrid.Width = mg.Width)
    (hcgH : mg.connectorGrid.Height = mg.Height)
    (hcgLen : mg.connectorGrid.grid.length
      = (mg.connectorGrid.Width * mg.connectorGrid.Height).toNat)
    (hok : generateConnectors mg = .ok mg1) :
    mg1.terrainGrid = mg.terrainGrid ∧
    ∀ x y : Int, (mg1.connectorGrid.Get x y).isSome ↔
      (1 ≤ x ∧ x ≤ mg.Width - 2 ∧ 1 ≤ y ∧ y ≤ mg.Height - 2 ∧
        connectorSpec mg x y) := by
  have hinv0 : ScanInv mg mg (fun _ _ => False) := by
    refine { terr := rfl, reg := rfl, w := rfl, h := rfl, cgW := hcgW,
             cgH := hcgH, cgLen := hcgLen, mark := ?_ }
    intro a b
    rw [hclean a b]
    simp
  obtain ⟨m2, heq, hinv2⟩ := connScan_rows_ok mg hreg
    (interiorRange (mg.Height - 1))
    (fun u hu => by
      have := mem_interiorRange.mp hu
      omega)
    mg _ hinv0
  have hok2 : mg1 = { m2 with phase := .PhaseConnectingRegions } := by
    unfold generateConnectors at hok
    rw [heq] at hok
    injection hok with h
    exact h.symm
  subst hok2
  constructor
  · exact hinv2.terr
  · intro x y
    have := hinv2.mark x y
    rw [show ({ m2 with phase := GenerationPhase.PhaseConnectingRegions }
        : MapGenerator).connectorGrid = m2.connectorGrid from rfl]
    rw [this]
    constructor
    · rintro ⟨hF | ⟨h1, h2, hmem⟩, hs⟩
      · exact absurd hF (fun hcon => hcon)
      · have := mem_interiorRange.mp hmem
        exact ⟨h1, by omega, by omega, by omega, hs⟩
    · rintro ⟨h1, h2, h3, h4, hs⟩
      exact ⟨Or.inr ⟨h1, by omega,
        mem_interiorRange.mpr ⟨h3, by omega⟩⟩, hs⟩

theorem Grid_Get_new {T : Type} [Inhabited T] (w h x y : Int) :
    (Grid.new T w h).Get x y = default := by
  unfold Grid.new Grid.Get
  split
  · rfl
  · rw [List.getD_eq_getElem?_getD, List.getElem?_replicate]
    split <;> rfl

theorem connector_scan_witness :
    ({ newMapGenWithRng 3 3 zeroRng 0 with
        phase := GenerationPhase.PhaseConnectingRegions }
      : MapGenerator).terrainGrid
        = (newMapGenWithRng 3 3 zeroRng 0).terrainGrid ∧
    ∀ x y : Int,
      ((({ newMapGenWithRng 3 3 zeroRng 0 with
            phase := GenerationPhase.PhaseConnectingRegions }
          : MapGenerator).connectorGrid).Get x y).isSome ↔
        (1 ≤ x ∧ x ≤ (newMapGenWithRng 3 3 zeroRng 0).Width - 2 ∧
          1 ≤ y ∧ y ≤ (newMapGenWithRng 3 3 zeroRng 0).Height - 2 ∧
          connectorSpec (newMapGenWithRng 3 3 zeroRng 0) x y) :=
  connector_scan_correct (newMapGenWithRng 3 3 zeroRng 0) _
    (by
      intro a b hw
      have hstone : (newMapGenWithRng 3 3 zeroRng 0).terrainGrid.Get a b
          = TileKind.Stone := Grid_Get_new 3 3 a b
      rw [hstone] at hw
      rcases hw with hcon | hcon <;> cases hcon)
    (fun a b => Grid_Get_new 3 3 a b)
    rfl rfl rfl rfl

theorem connRewrite_eq (oldR newR : Region) (c : Connector) :
    connRewrite oldR newR c =
      { c with
        region1 := if c.region1.id = oldR.id then newR else c.region1,
        region2 := if c.region2.id = oldR.id then newR else c.region2 } := by
  unfold connRewrite
  by_cases h1 : c.region1.id = oldR.id <;> by_cases h2 : c.region2.id = oldR.id <;>
    simp [h1, h2]

theorem connRewrite_idem (oldR newR : Region) (hne : newR.id ≠ oldR.id)
    (c : Connector) :
    connRewrite oldR newR (connRewrite oldR newR c)
      = connRewrite oldR newR c := by
  simp only [connRewrite_eq]
  by_cases h1 : c.region1.id = oldR.id <;> by_cases h2 : c.region2.id = oldR.id <;>
    simp [h1, h2, hne]

theorem regRewrite_idem (oldR newR : Region) (hne : newR.id ≠ oldR.id)
    (o : Option Region) :
    regRewrite oldR newR (regRewrite oldR newR o) = regRewrite oldR newR o := by
  cases o with
  | none => rfl
  | some r =>
      unfold regRewrite
      by_cases h : r.id = oldR.id <;> simp [h, hne]

theorem Grid.Get_ne_default {T : Type} [Inhabited T] (g : Grid T)
    (x y : Int) (h : g.Get x y ≠ default) :
    0 ≤ x ∧ x < g.Width ∧ 0 ≤ y ∧ y < g.Height := by
  by_contra hcon
  exact h (Grid.Get_oob g x y hcon)

theorem region_stage_char (m0 : MapGenerator) (oldR newR : Region)
    (hne : newR.id ≠ oldR.id)
    (hrgLen0 : m0.regionGrid.grid.length
      = (m0.regionGrid.Width * m0.regionGrid.Height).toNat)
    (D : Int → Int → Prop) (m : MapGenerator) (x y : Int)
    (hinv : ReplInv m0 oldR newR D m) :
    ∃ mg1, (match m.regionGrid.Get x y with
      | some r =>
          if r.id = oldR.id then
            { m with regionGrid := m.regionGrid.Set x y (some newR) }
          else m
      | none => m) = mg1 ∧
      (mg1 = m ∨
        mg1 = { m with regionGrid := m.regionGrid.Set x y (some newR) }) ∧
      mg1.regionGrid.Get x y
        = regRewrite oldR newR (m0.regionGrid.Get x y) ∧
      ∀ a b : Int, ¬ (a = x ∧ b = y) →
        mg1.regionGrid.Get a b = m.regionGrid.Get a b := by
  have hlenm : m.regionGrid.grid.length
      = (m.regionGrid.Width * m.regionGrid.Height).toNat := by
    rw [hinv.rgLen, hinv.rgW, hinv.rgH]
    exact hrgLen0
  rcases hget : m.regionGrid.Get x y with _ | r
  · refine ⟨m, rfl, Or.inl rfl, ?_, fun a b _ => rfl⟩
    by_cases hD : D x y
    · have h1 := hinv.reg1 x y hD
      rw [hget] at h1
      rw [hget, ← h1]
    · have h1 := hinv.reg2 x y hD
      rw [hget] at h1
      rw [hget, ← h1]
      rfl
  · by_cases hid : r.id = oldR.id
    · have hbounds := Grid.Get_ne_default m.regionGrid x y
        (by rw [hget]; exact fun hcon => Option.noConfusion hcon)
      refine ⟨{ m with regionGrid := m.regionGrid.Set x y (some newR) },
        by simp [hid], Or.inr rfl, ?_, ?_⟩
      · show (m.regionGrid.Set x y (some newR)).Get x y = _
        rw [Grid.Get_Set_same _ _ _ _ hlenm hbounds.1 hbounds.2.1
          hbounds.2.2.1 hbounds.2.2.2]
        by_cases hD : D x y
        · have h1 := hinv.reg1 x y hD
          rw [hget] at h1
          rcases hm0 : m0.regionGrid.Get x y with _ | r0
          · rw [hm0] at h1
            exact absurd h1.symm (by simp [regRewrite])
          · rw [hm0] at h1
            simp only [regRewrite] at h1 ⊢
            by_cases h0 : r0.id = oldR.id
            · rw [if_pos h0]
            · rw [if_neg h0] at h1
              injection h1 with h2
              exact absurd (h2 ▸ hid) h0
        · have h1 := hinv.reg2 x y hD
          rw [hget] at h1
          rw [← h1]
          simp only [regRewrite]
          rw [if_pos hid]
      · intro a b hab
        show (m.regionGrid.Set x y (some newR)).Get a b = _
        rw [Grid.Get_Set_ne _ _ _ _ _ _ hab]
    · refine ⟨m, by simp [hid], Or.inl rfl, ?_, fun a b _ => rfl⟩
      by_cases hD : D x y
      · have h1 := hinv.reg1 x y hD
        rw [hget] at h1
        rw [hget, ← h1]
      · have h1 := hinv.reg2 x y hD
        rw [hget] at h1
        rw [hget, ← h1]
        simp [regRewrite, hid]

theorem store_stage_char (m0 : MapGenerator) (oldR newR : Region)
    (hne : newR.id ≠ oldR.id) (D : Int → Int → Prop) (x y : Int)
    (m2 : MapGenerator)
    (hcg2 : m2.connectorGrid = m0.connectorGrid)
    (hst1 : ∀ j : Nat,
      (∃ a b : Int, D a b ∧ m0.connectorGrid.Get a b = some j) →
      m2.connectorStore.get? j
        = (m0.connectorStore.get? j).map (connRewrite oldR newR))
    (hst2 : ∀ j : Nat,
      (¬ ∃ a b : Int, D a b ∧ m0.connectorGrid.Get a b = some j) →
      m2.connectorStore.get? j = m0.connectorStore.get? j) :
    ∃ F, (match m2.connectorGrid.Get x y with
      | some idx =>
          match m2.connectorStore.get? idx with
          | some c =>
              let c1 := if c.region1.id = oldR.id then
                  { c with region1 := newR } else c
              let c2 := if c1.region2.id = oldR.id then
                  { c1 with region2 := newR } else c1
              { m2 with connectorStore := m2.connectorStore.set idx c2 }
          | none => m2
      | none => m2) = F ∧
      (F = m2 ∨ ∃ idx c2,
        F = { m2 with connectorStore := m2.connectorStore.set idx c2 }) ∧
      (∀ j : Nat, (∃ a b : Int, (D a b ∨ (a = x ∧ b = y)) ∧
          m0.connectorGrid.Get a b = some j) →
        F.connectorStore.get? j
          = (m0.connectorStore.get? j).map (connRewrite oldR newR)) ∧
      (∀ j : Nat, (¬ ∃ a b : Int, (D a b ∨ (a = x ∧ b = y)) ∧
          m0.connectorGrid.Get a b = some j) →
        F.connectorStore.get? j = m0.connectorStore.get? j) := by
  rcases hcgget : m2.connectorGrid.Get x y with _ | j0
  · have hm0get : m0.connectorGrid.Get x y = none := by
      rw [← hcg2]
      exact hcgget
    refine ⟨m2, rfl, Or.inl rfl, ?_, ?_⟩
    · intro j ⟨a, b, hD, href⟩
      rcases hD with hD | ⟨rfl, rfl⟩
      · exact hst1 j ⟨a, b, hD, href⟩
      · rw [hm0get] at href
        exact absurd href (by simp)
    · intro j hnone
      apply hst2 j
      intro ⟨a, b, hD, href⟩
      exact hnone ⟨a, b, Or.inl hD, href⟩
  · have hm0get : m0.connectorGrid.Get x y = some j0 := by
      rw [← hcg2]
      exact hcgget
    have hsplit : ∀ j : Nat, j ≠ j0 →
        ((∃ a b : Int, (D a b ∨ (a = x ∧ b = y)) ∧
          m0.connectorGrid.Get a b = some j) ↔
        (∃ a b : Int, D a b ∧ m0.connectorGrid.Get a b = some j)) := by
      intro j hj
      constructor
      · intro ⟨a, b, hD, href⟩
        rcases hD with hD | ⟨rfl, rfl⟩
        · exact ⟨a, b, hD, href⟩
        · rw [hm0get] at href
          injection href with h2
          exact absurd h2.symm hj
      · intro ⟨a, b, hD, href⟩
        exact ⟨a, b, Or.inl hD, href⟩
    rcases hsg : m2.connectorStore.get? j0 with _ | c
    · refine ⟨m2, ?_, Or.inl rfl, ?_, ?_⟩
      · simp only []
        rw [hsg]
      · intro j ⟨a, b, hD, href⟩
        by_cases hj : j = j0
        · subst hj
          rw [hsg]
          by_cases hrefD : ∃ a b : Int, D a b ∧
              m0.connectorGrid.Get a b = some j
          · have := hst1 j hrefD
            rw [hsg] at this
            exact this
          · have := hst2 j hrefD
            rw [hsg] at this
            rw [← this]
            simp
        · rcases hD with hD | ⟨rfl, rfl⟩
          · exact hst1 j ⟨a, b, hD, href⟩
          · rw [hm0get] at href
            injection href with h2
            exact absurd h2.symm hj
      · intro j hnone
        apply hst2 j
        intro ⟨a, b, hD, href⟩
        exact hnone ⟨a, b, Or.inl hD, href⟩
    · have hlt : j0 < m2.connectorStore.length := by
        by_contra hge
        rw [List.get?_eq_none.mpr (by omega)] at hsg
        exact Option.noConfusion hsg
      refine ⟨{ m2 with connectorStore :=
          m2.connectorStore.set j0 (connRewrite oldR newR c) }, ?_,
        Or.inr ⟨j0, connRewrite oldR newR c, rfl⟩, ?_, ?_⟩
      · simp only []
        rw [hsg]
        rfl
      · intro j ⟨a, b, hD, href⟩
        by_cases hj : j = j0
        · subst hj
          show (m2.connectorStore.set j (connRewrite oldR newR c)).get? j = _
          rw [List.get?_set_eq_of_lt _ hlt]
          by_cases hrefD : ∃ a b : Int, D a b ∧
              m0.connectorGrid.Get a b = some j
          · have h2 := hst1 j hrefD
            rw [hsg] at h2
            rcases hm0s : m0.connectorStore.get? j with _ | c0
            · rw [hm0s] at h2
              exact absurd h2.symm (by simp)
            · rw [hm0s] at h2
              simp only [Option.map_some'] at h2 ⊢
              injection h2 with h3
              rw [h3, connRewrite_idem _ _ hne]
          · have h2 := hst2 j hrefD
            rw [hsg] at h2
            rw [← h2]
            rfl
        · show (m2.connectorStore.set j0 (connRewrite oldR newR c)).get? j = _
          rw [List.get?_set_ne _ _ (fun hcon => hj hcon.symm)]
          exact hst1 j ((hsplit j hj).mp ⟨a, b, hD, href⟩)
      · intro j hnone
        have hj : j ≠ j0 := by
          intro hcon
          subst hcon
          exact hnone ⟨x, y, Or.inr ⟨rfl, rfl⟩, hm0get⟩
        show (m2.connectorStore.set j0 (connRewrite oldR newR c)).get? j = _
        rw [List.get?_set_ne _ _ (fun hcon => hj hcon.symm)]
        apply hst2 j
        intro ⟨a, b, hD, href⟩
        exact hnone ⟨a, b, Or.inl hD, href⟩

theorem replaceCell_step (m0 : MapGenerator) (oldR newR : Region)
    (hne : newR.id ≠ oldR.id)
    (hrgLen0 : m0.regionGrid.grid.length
      = (m0.regionGrid.Width * m0.regionGrid.Height).toNat)
    (D : Int → Int → Prop) (m : MapGenerator) (x y : Int)
    (hinv : ReplInv m0 oldR newR D m) :
    ReplInv m0 oldR newR (fun a b => D a b ∨ (a = x ∧ b = y))
      (replaceCell oldR newR m x y) := by
  obtain ⟨mg1, hmg1eq, hM, hX, hO⟩ :=
    region_stage_char m0 oldR newR hne hrgLen0 D m x y hinv
  have hcg1 : mg1.connectorGrid = m.connectorGrid := by
    rcases hM with rfl | rfl <;> rfl
  have hst1 : mg1.connectorStore = m.connectorStore := by
    rcases hM with rfl | rfl <;> rfl
  have hterr1 : mg1.terrainGrid = m.terrainGrid := by
    rcases hM with rfl | rfl <;> rfl
  have hregs1 : mg1.regions = m.regions := by
    rcases hM with rfl | rfl <;> rfl
  have hrgW1 : mg1.regionGrid.Width = m.regionGrid.Width := by
    rcases hM with rfl | rfl
    · rfl
    · exact Grid.Set_Width _ _ _ _
  have hrgH1 : mg1.regionGrid.Height = m.regionGrid.Height := by
    rcases hM with rfl | rfl
    · rfl
    · exact Grid.Set_Height _ _ _ _
  have hrgLen1 : mg1.regionGrid.grid.length = m.regionGrid.grid.length := by
    rcases hM with rfl | rfl
    · rfl
    · exact Grid.Set_length _ _ _ _
  obtain ⟨F, hFeq, hFM, hFs1, hFs2⟩ :=
    store_stage_char m0 oldR newR hne D x y mg1
      (hcg1.trans hinv.cg)
      (fun j hj => by rw [hst1]; exact hinv.store1 j hj)
      (fun j hj => by rw [hst1]; exact hinv.store2 j hj)
  have hcall : replaceCell oldR newR m x y = F := by
    unfold replaceCell
    simp only []
    rw [hmg1eq]
    exact hFeq
  rw [hcall]
  have hcgF : F.connectorGrid = mg1.connectorGrid := by
    rcases hFM with rfl | ⟨idx, c2, rfl⟩ <;> rfl
  have hterrF : F.terrainGrid = mg1.terrainGrid := by
    rcases hFM with rfl | ⟨idx, c2, rfl⟩ <;> rfl
  have hregsF : F.regions = mg1.regions := by
    rcases hFM with rfl | ⟨idx, c2, rfl⟩ <;> rfl
  have hrgF : F.regionGrid = mg1.regionGrid := by
    rcases hFM with rfl | ⟨idx, c2, rfl⟩ <;> rfl
  have hstLenF : F.connectorStore.length = mg1.connectorStore.length := by
    rcases hFM with rfl | ⟨idx, c2, rfl⟩
    · rfl
    · simp
  refine { terr := by rw [hterrF, hterr1]; exact hinv.terr,
           cg := by rw [hcgF, hcg1]; exact hinv.cg,
           regs := by rw [hregsF, hregs1]; exact hinv.regs,
           rgW := by rw [hrgF, hrgW1]; exact hinv.rgW,
           rgH := by rw [hrgF, hrgH1]; exact hinv.rgH,
           rgLen := by rw [hrgF, hrgLen1]; exact hinv.rgLen,
           storeLen := by rw [hstLenF, hst1]; exact hinv.storeLen,
           reg1 := ?_, reg2 := ?_, store1 := hFs1, store2 := hFs2 }
  · intro a b hD
    rw [hrgF]
    rcases hD with hD | ⟨rfl, rfl⟩
    · by_cases hab : a = x ∧ b = y
      · obtain ⟨rfl, rfl⟩ := hab
        exact hX
      · rw [hO a b hab]
        exact hinv.reg1 a b hD
    · exact hX
  · intro a b hD
    rw [hrgF]
    have hab : ¬ (a = x ∧ b = y) := fun hcon => hD (Or.inr hcon)
    rw [hO a b hab]
    exact hinv.reg2 a b (fun hcon => hD (Or.inl hcon))

theorem ReplInv_iff (m0 : MapGenerator) (oldR newR : Region)
    (D1 D2 : Int → Int → Prop) (m : MapGenerator)
    (h12 : ∀ a b, D1 a b ↔ D2 a b)
    (hinv : ReplInv m0 oldR newR D1 m) : ReplInv m0 oldR newR D2 m := by
  refine { terr := hinv.terr, cg := hinv.cg, regs := hinv.regs,
           rgW := hinv.rgW, rgH := hinv.rgH, rgLen := hinv.rgLen,
           storeLen := hinv.storeLen,
           reg1 := fun a b h => hinv.reg1 a b ((h12 a b).mpr h),
           reg2 := fun a b h => hinv.reg2 a b (fun hc => h ((h12 a b).mp hc)),
           store1 := ?_, store2 := ?_ }
  · intro j ⟨a, b, hD, href⟩
    exact hinv.store1 j ⟨a, b, (h12 a b).mpr hD, href⟩
  · intro j hn
    exact hinv.store2 j (fun ⟨a, b, hD, href⟩ =>
      hn ⟨a, b, (h12 a b).mp hD, href⟩)

theorem replaceRow_fold (m0 : MapGenerator) (oldR newR : Region)
    (hne : newR.id ≠ oldR.id)
    (hrgLen0 : m0.regionGrid.grid.length
      = (m0.regionGrid.Width * m0.regionGrid.Height).toNat) (y : Int) :
    ∀ (xs : List Int) (m : MapGenerator) (D : Int → Int → Prop),
      ReplInv m0 oldR newR D m →
      ReplInv m0 oldR newR (fun a b => D a b ∨ (a ∈ xs ∧ b = y))
        (xs.foldl (fun acc2 x => replaceCell oldR newR acc2 x y) m) := by
  intro xs
  induction xs with
  | nil =>
      intro m D hinv
      refine ReplInv_iff m0 oldR newR D _ m ?_ hinv
      intro a b
      simp
  | cons v rest ih =>
      intro m D hinv
      rw [List.foldl_cons]
      have h1 := replaceCell_step m0 oldR newR hne hrgLen0 D m v y hinv
      have h2 := ih (replaceCell oldR newR m v y) _ h1
      refine ReplInv_iff m0 oldR newR _ _ _ ?_ h2
      intro a b
      constructor
      · rintro ((hD | ⟨rfl, rfl⟩) | ⟨hmem, rfl⟩)
        · exact Or.inl hD
        · exact Or.inr ⟨List.mem_cons_self a rest, rfl⟩
        · exact Or.inr ⟨List.mem_cons_of_mem v hmem, rfl⟩
      · rintro (hD | ⟨hmem, rfl⟩)
        · exact Or.inl (Or.inl hD)
        · rcases List.mem_cons.mp hmem with rfl | hmem2
          · exact Or.inl (Or.inr ⟨rfl, rfl⟩)
          · exact Or.inr ⟨hmem2, rfl⟩

theorem replaceRows_fold (m0 : MapGenerator) (oldR newR : Region)
    (hne : newR.id ≠ oldR.id)
    (hrgLen0 : m0.regionGrid.grid.length
      = (m0.regionGrid.Width * m0.regionGrid.Height).toNat) :
    ∀ (ys : List Int) (m : MapGenerator) (D : Int → Int → Prop),
      ReplInv m0 oldR newR D m →
      ReplInv m0 oldR newR
        (fun a b => D a b ∨ (a ∈ rangeInt m0.Width ∧ b ∈ ys))
        (ys.foldl (fun acc yy => (rangeInt m0.Width).foldl
          (fun acc2 x => replaceCell oldR newR acc2 x yy) acc) m) := by
  intro ys
  induction ys with
  | nil =>
      intro m D hinv
      refine ReplInv_iff m0 oldR newR D _ m ?_ hinv
      intro a b
      simp
  | cons v rest ih =>
      intro m D hinv
      rw [List.foldl_cons]
      have h1 := replaceRow_fold m0 oldR newR hne hrgLen0 v
        (rangeInt m0.Width) m D hinv
      have h2 := ih _ _ h1
      refine ReplInv_iff m0 oldR newR _ _ _ ?_ h2
      intro a b
      constructor
      · rintro ((hD | ⟨hmem, rfl⟩) | ⟨hmem2, hmem3⟩)
        · exact Or.inl hD
        · exact Or.inr ⟨hmem, List.mem_cons_self b rest⟩
        · exact Or.inr ⟨hmem2, List.mem_cons_of_mem v hmem3⟩
      · rintro (hD | ⟨hmem2, hmem3⟩)
        · exact Or.inl (Or.inl hD)
        · rcases List.mem_cons.mp hmem3 with rfl | hmem4
          · exact Or.inl (Or.inr ⟨hmem2, rfl⟩)
          · exact Or.inr ⟨hmem2, hmem4⟩

theorem replaceRegion_char (m0 : MapGenerator) (oldR newR : Region)
    (hne : newR.id ≠ oldR.id)
    (hrgLen0 : m0.regionGrid.grid.length
      = (m0.regionGrid.Width * m0.regionGrid.Height).toNat) :
    ReplInv m0 oldR newR
      (fun a b => 0 ≤ a ∧ a < m0.Width ∧ 0 ≤ b ∧ b < m0.Height)
      (replaceRegion m0 oldR newR) := by
  have hinv0 : ReplInv m0 oldR newR (fun _ _ => False) m0 := by
    refine { terr := rfl, cg := rfl, regs := rfl, rgW := rfl, rgH := rfl,
             rgLen := rfl, storeLen := rfl,
             reg1 := fun a b h => absurd h (fun hc => hc),
             reg2 := fun _ _ _ => rfl,
             store1 := ?_, store2 := fun _ _ => rfl }
    intro j ⟨a, b, hD, _⟩
    exact absurd hD (fun hc => hc)
  have h := replaceRows_fold m0 oldR newR hne hrgLen0
    (rangeInt m0.Height) m0 _ hinv0
  refine ReplInv_iff m0 oldR newR _ _ _ ?_ h
  intro a b
  rw [mem_rangeInt, mem_rangeInt]
  constructor
  · rintro (hF | ⟨h1, h2⟩)
    · exact absurd hF (fun hc => hc)
    · exact ⟨h1.1, h1.2, h2.1, h2.2⟩
  · rintro ⟨h1, h2, h3, h4⟩
    exact Or.inr ⟨⟨h1, h2⟩, ⟨h3, h4⟩⟩

theorem connects_other_ne_root (root : Region) (c : Connector)
    (h : connectsRootToUnconnectedRegion root c = true) :
    (if c.region1.id = root.id then c.region2 else c.region1).id
      ≠ root.id := by
  unfold connectsRootToUnconnectedRegion at h
  by_cases h1 : c.region1.id = root.id
  · rw [if_pos h1]
    simp [h1] at h
    exact h
  · rw [if_neg h1]
    simp [h1] at h
    exact h1

/-- C6: a popped root-connector candidate is turned into a Door iff no
cardinal neighbour is already a Door and exactly one of its two
recorded regions is the current root region; on rejection the loop
just moves on to the remaining candidates without mutating the state,
and on acceptance the cell's terrain becomes Door, its region grid
entry becomes the root region, every region grid cell and every
connector record holding the absorbed region id is rewritten to the
root region (`regRewrite`, `connRewrite`), and the absorbed region is
deleted from the live region map. -/
theorem connect_candidate_acceptance (mg : MapGenerator) (root : Region)
    (idx : Nat) (rest : List Nat) (c : Connector)
    (hc : mg.connectorStore.getD idx default = c)
    (hrgW : mg.regionGrid.Width = mg.Width)
    (hrgH : mg.regionGrid.Height = mg.Height)
    (hrgLen : mg.regionGrid.grid.length
      = (mg.regionGrid.Width * mg.regionGrid.Height).toNat)
    (htW : mg.terrainGrid.Width = mg.Width)
    (htH : mg.terrainGrid.Height = mg.Height)
    (htLen : mg.terrainGrid.grid.length
      = (mg.terrainGrid.Width * mg.terrainGrid.Height).toNat)
    (hcx : 1 ≤ c.x) (hcx2 : c.x ≤ mg.Width - 2)
    (hcy : 1 ≤ c.y) (hcy2 : c.y ≤ mg.Height - 2)
    (hcov : ∀ j : Nat, j < mg.connectorStore.length →
      ∃ a b : Int, 0 ≤ a ∧ a < mg.Width ∧ 0 ≤ b ∧ b < mg.Height ∧
        mg.connectorGrid.Get a b = some j) :
    ((connectorIsBesideDoor { mg with rootConnectors := rest } c = true ∨
        connectsRootToUnconnectedRegion root c = false) →
      connectLoop root mg (idx :: rest)
        = connectLoop root { mg with rootConnectors := rest } rest) ∧
    (connectorIsBesideDoor { mg with rootConnectors := rest } c = false →
      connectsRootToUnconnectedRegion root c = true →
      connectLoop root mg (idx :: rest)
        = .ok (acceptConnector { mg with rootConnectors := rest } root c) ∧
      (acceptConnector { mg with rootConnectors := rest } root
          c).terrainGrid.Get c.x c.y = TileKind.Door ∧
      (acceptConnector { mg with rootConnectors := rest } root
          c).regionGrid.Get c.x c.y = some root ∧
      (∀ a b : Int, ¬ (a = c.x ∧ b = c.y) →
        (acceptConnector { mg with rootConnectors := rest } root
            c).regionGrid.Get a b
          = regRewrite (if c.region1.id = root.id then c.region2
              else c.region1) root (mg.regionGrid.Get a b)) ∧
      (∀ (j : Nat) (cr : Connector), mg.connectorStore.get? j = some cr →
        (acceptConnector { mg with rootConnectors := rest } root
            c).connectorStore.get? j
          = some (connRewrite (if c.region1.id = root.id then c.region2
              else c.region1) root cr)) ∧
      (acceptConnector { mg with rootConnectors := rest } root c).regions
        = mapErase mg.regions
            (if c.region1.id = root.id then c.region2
              else c.region1).id) := by
  have hloop : connectLoop root mg (idx :: rest)
      = (if connectorIsBesideDoor { mg with rootConnectors := rest } c
        then connectLoop root { mg with rootConnectors := rest } rest
        else if connectsRootToUnconnectedRegion root c
        then .ok (acceptConnector { mg with rootConnectors := rest } root c)
        else connectLoop root { mg with rootConnectors := rest } rest) := by
    show (let mg1 : MapGenerator := { mg with rootConnectors := rest }
      let cc := mg1.connectorStore.getD idx default
      if connectorIsBesideDoor mg1 cc then connectLoop root mg1 rest
      else if connectsRootToUnconnectedRegion root cc then
        .ok (acceptConnector mg1 root cc)
      else connectLoop root mg1 rest) = _
    simp only []
    rw [show ({ mg with rootConnectors := rest }
      : MapGenerator).connectorStore.getD idx default = c from hc]
  constructor
  · intro hrej
    rw [hloop]
    rcases hrej with hbd | hnc
    · rw [if_pos hbd]
    · by_cases hbd : connectorIsBesideDoor
          { mg with rootConnectors := rest } c
      · rw [if_pos hbd]
      · rw [if_neg hbd, if_neg (by rw [hnc]; exact fun hcon => by cases hcon)]
  · intro hbd hacc
    have hne := connects_other_ne_root root c hacc
    set otherR := if c.region1.id = root.id then c.region2 else c.region1
      with hother
    set m1 : MapGenerator := { mg with
      rootConnectors := rest,
      terrainGrid := mg.terrainGrid.Set c.x c.y .Door,
      regionGrid := mg.regionGrid.Set c.x c.y (some root) } with hm1
    have he1 : m1.regionGrid = mg.regionGrid.Set c.x c.y (some root) := by
      rw [hm1]
    have he2 : m1.terrainGrid = mg.terrainGrid.Set c.x c.y .Door := by
      rw [hm1]
    have he3 : m1.Width = mg.Width := by rw [hm1]
    have he4 : m1.Height = mg.Height := by rw [hm1]
    have he5 : m1.connectorStore = mg.connectorStore := by rw [hm1]
    have he6 : m1.connectorGrid = mg.connectorGrid := by rw [hm1]
    have he7 : m1.regions = mg.regions := by rw [hm1]
    have hm1rgW : m1.regionGrid.Width = mg.regionGrid.Width := by
      rw [he1]
      exact Grid.Set_Width _ _ _ _
    have hm1rgH : m1.regionGrid.Height = mg.regionGrid.Height := by
      rw [he1]
      exact Grid.Set_Height _ _ _ _
    have hm1rgLen : m1.regionGrid.grid.length
        = (m1.regionGrid.Width * m1.regionGrid.Height).toNat := by
      rw [he1, Grid.Set_length, Grid.Set_Width, Grid.Set_Height]
      exact hrgLen
    have hchar := replaceRegion_char m1 otherR root
      (fun hcon => hne hcon.symm) hm1rgLen
    have haccept : acceptConnector { mg with rootConnectors := rest } root c
        = { replaceRegion m1 otherR root with
            regions := mapErase (replaceRegion m1 otherR root).regions
              otherR.id } := rfl
    have hinbt : 0 ≤ c.x ∧ c.x < mg.terrainGrid.Width ∧ 0 ≤ c.y ∧
        c.y < mg.terrainGrid.Height := by omega
    have hinbr : 0 ≤ c.x ∧ c.x < mg.regionGrid.Width ∧ 0 ≤ c.y ∧
        c.y < mg.regionGrid.Height := by omega
    refine ⟨?_, ?_, ?_, ?_, ?_, ?_⟩
    · rw [hloop, if_neg (by rw [hbd]; exact fun hcon => by cases hcon),
        if_pos hacc]
    · rw [haccept]
      show (replaceRegion m1 otherR root).terrainGrid.Get c.x c.y = _
      rw [hchar.terr, he2]
      rw [Grid.Get_Set_same _ _ _ _ htLen hinbt.1 hinbt.2.1 hinbt.2.2.1
        hinbt.2.2.2]
    · rw [haccept]
      show (replaceRegion m1 otherR root).regionGrid.Get c.x c.y = _
      rw [hchar.reg1 c.x c.y (by rw [he3, he4]; omega)]
      have hgot : m1.regionGrid.Get c.x c.y = some root := by
        rw [he1]
        rw [Grid.Get_Set_same _ _ _ _ hrgLen hinbr.1 hinbr.2.1 hinbr.2.2.1
          hinbr.2.2.2]
      rw [hgot]
      simp only [regRewrite]
      by_cases hq : root.id = otherR.id
      · rw [if_pos hq]
      · rw [if_neg hq]
    · intro a b hab
      rw [haccept]
      show (replaceRegion m1 otherR root).regionGrid.Get a b = _
      have hm1get : m1.regionGrid.Get a b = mg.regionGrid.Get a b := by
        rw [he1]
        rw [Grid.Get_Set_ne _ _ _ _ _ _ hab]
      by_cases hin : 0 ≤ a ∧ a < m1.Width ∧ 0 ≤ b ∧ b < m1.Height
      · rw [hchar.reg1 a b hin, hm1get]
      · rw [hchar.reg2 a b hin, hm1get]
        have hoob : mg.regionGrid.Get a b = none := by
          apply Grid.Get_oob
          rw [he3, he4] at hin
          intro hcon
          exact hin (by omega)
        rw [hoob]
        rfl
    · intro j cr hj
      rw [haccept]
      show (replaceRegion m1 otherR root).connectorStore.get? j = _
      have hjlt : j < mg.connectorStore.length := by
        by_contra hge
        rw [List.get?_eq_none.mpr (by omega)] at hj
        exact Option.noConfusion hj
      obtain ⟨a, b, ha1, ha2, ha3, ha4, haref⟩ := hcov j hjlt
      have hstep := hchar.store1 j ⟨a, b,
        (by rw [he3, he4]; exact ⟨ha1, ha2, ha3, ha4⟩),
        (by rw [he6]; exact haref)⟩
      rw [hstep, he5, hj]
      rfl
    · rw [haccept]
      show mapErase (replaceRegion m1 otherR root).regions otherR.id = _
      rw [hchar.regs, he7]

theorem connect_candidate_acceptance_witness :
    connectLoop c6RegionA c6State [0]
      = .ok (acceptConnector { c6State with rootConnectors := [] }
          c6RegionA c6Connector) ∧
    (acceptConnector { c6State with rootConnectors := [] } c6RegionA
        c6Connector).terrainGrid.Get 2 2 = TileKind.Door := by
  have h := connect_candidate_acceptance c6State c6RegionA 0 []
    c6Connector rfl rfl rfl rfl rfl rfl rfl (by decide) (by decide)
    (by decide) (by decide)
    (by
      intro j hj
      have hlen : c6State.connectorStore.length = 1 := rfl
      have hj0 : j = 0 := by omega
      subst hj0
      exact ⟨2, 2, by decide, by decide, by decide, by decide, rfl⟩)
  have h2 := h.2 rfl rfl
  exact ⟨h2.1, h2.2.1⟩

theorem foldl_pres {α β : Type} (f : β → α → β) (Q : β → Prop) :
    ∀ (l : List α) (init : β), Q init → (∀ b a, Q b → Q (f b a)) →
      Q (l.foldl f init) := by
  intro l
  induction l with
  | nil =>
      intro init h _
      exact h
  | cons v rest ih =>
      intro init h hstep
      exact ih _ (hstep init v h) hstep

theorem except_bind_ok {α β : Type} {e : Except GoErr α}
    {k : α → Except GoErr β} {m2 : β} (h : (e >>= k) = .ok m2) :
    ∃ m1, e = .ok m1 ∧ k m1 = .ok m2 := by
  cases e with
  | error err => simp [Bind.bind, Except.bind] at h
  | ok m1 => exact ⟨m1, rfl, h⟩

theorem nextRegion_pres (mg : MapGenerator) :
    (nextRegion mg).2.roomList = mg.roomList ∧
    (nextRegion mg).2.Width = mg.Width ∧
    (nextRegion mg).2.Height = mg.Height := ⟨rfl, rfl, rfl⟩

theorem startWalking_pres (mg : MapGenerator) :
    (startWalking mg).roomList = mg.roomList ∧
    (startWalking mg).Width = mg.Width ∧
    (startWalking mg).Height = mg.Height := ⟨rfl, rfl, rfl⟩

theorem colScan_pres (scanY : Int) :
    ∀ (l : List Int) (mg mg' : MapGenerator),
      colScan scanY mg l = some mg' →
      mg'.roomList = mg.roomList ∧ mg'.Width = mg.Width ∧
        mg'.Height = mg.Height := by
  intro l
  induction l with
  | nil =>
      intro mg mg' h
      cases h
  | cons c rest ih =>
      intro mg mg' h
      unfold colScan at h
      by_cases hs : mg.terrainGrid.Get c scanY = TileKind.Stone
      · rw [if_pos hs] at h
        injection h with h
        subst h
        exact ⟨rfl, rfl, rfl⟩
      · rw [if_neg hs] at h
        exact ih mg mg' h

theorem carveMaze_pres (mg : MapGenerator) :
    (carveMaze mg).1.roomList = mg.roomList ∧
    (carveMaze mg).1.Width = mg.Width ∧
    (carveMaze mg).1.Height = mg.Height := by
  unfold carveMaze
  split
  · exact ⟨rfl, rfl, rfl⟩
  · simp only []
    split
    · rename_i mg4 heq
      have h := colScan_pres _ _ _ _ heq
      exact ⟨h.1, h.2.1, h.2.2⟩
    · exact ⟨rfl, rfl, rfl⟩

theorem doCarve_pres (mg : MapGenerator) (d : Direction) :
    (doCarve mg d).roomList = mg.roomList ∧
    (doCarve mg d).Width = mg.Width ∧
    (doCarve mg d).Height = mg.Height := by
  cases d <;> exact ⟨rfl, rfl, rfl⟩

theorem walkDirs_pres :
    ∀ (l : List Direction) (mg mg' : MapGenerator),
      walkDirs mg l = some mg' →
      mg'.roomList = mg.roomList ∧ mg'.Width = mg.Width ∧
        mg'.Height = mg.Height := by
  intro l
  induction l with
  | nil =>
      intro mg mg' h
      cases h
  | cons d rest ih =>
      intro mg mg' h
      unfold walkDirs at h
      by_cases hc : canCarve mg d
      · rw [if_pos hc] at h
        injection h with h
        subst h
        have := doCarve_pres mg d
        exact ⟨this.1, this.2.1, this.2.2⟩
      · rw [if_neg hc] at h
        exact ih mg mg' h

theorem mazeWalk_pres (mg : MapGenerator) :
    (mazeWalk mg).1.roomList = mg.roomList ∧
    (mazeWalk mg).1.Width = mg.Width ∧
    (mazeWalk mg).1.Height = mg.Height := by
  unfold mazeWalk
  simp only []
  split
  · rename_i mg2 heq
    have h := walkDirs_pres _ _ _ heq
    exact ⟨h.1, h.2.1, h.2.2⟩
  · exact ⟨rfl, rfl, rfl⟩

theorem huntDirs_pres :
    ∀ (l : List Direction) (mg mg' : MapGenerator),
      huntDirs mg l = some mg' →
      mg'.roomList = mg.roomList ∧ mg'.Width = mg.Width ∧
        mg'.Height = mg.Height := by
  intro l
  induction l with
  | nil =>
      intro mg mg' h
      cases h
  | cons d rest ih =>
      intro mg mg' h
      unfold huntDirs at h
      by_cases hc : canCarve mg d
      · rw [if_pos hc] at h
        injection h with h
        subst h
        exact doCarve_pres mg d
      · rw [if_neg hc] at h
        exact ih mg mg' h

theorem huntLoop_pres :
    ∀ (l : List (Int × Int)) (mg : MapGenerator),
      (huntLoop mg l).1.roomList = mg.roomList ∧
      (huntLoop mg l).1.Width = mg.Width ∧
      (huntLoop mg l).1.Height = mg.Height := by
  intro l
  induction l with
  | nil =>
      intro mg
      exact ⟨rfl, rfl, rfl⟩
  | cons p rest ih =>
      intro mg
      unfold huntLoop
      simp only []
      split
      · rename_i mg2 heq
        have h := huntDirs_pres _ _ _ heq
        exact ⟨h.1, h.2.1, h.2.2⟩
      · exact ih _

theorem mazeHunt_pres (mg : MapGenerator) :
    (mazeHunt mg).1.roomList = mg.roomList ∧
    (mazeHunt mg).1.Width = mg.Width ∧
    (mazeHunt mg).1.Height = mg.Height := by
  unfold mazeHunt
  exact huntLoop_pres _ _

theorem walk_pres (mg : MapGenerator) :
    (walk mg).roomList = mg.roomList ∧
    (walk mg).Width = mg.Width ∧
    (walk mg).Height = mg.Height := by
  have hw := mazeWalk_pres mg
  have hh := mazeHunt_pres (mazeWalk mg).1
  have hcomp :
      ((if (mazeWalk mg).2 then ((mazeWalk mg).1, true)
          else mazeHunt (mazeWalk mg).1).1.roomList = mg.roomList) ∧
      ((if (mazeWalk mg).2 then ((mazeWalk mg).1, true)
          else mazeHunt (mazeWalk mg).1).1.Width = mg.Width) ∧
      ((if (mazeWalk mg).2 then ((mazeWalk mg).1, true)
          else mazeHunt (mazeWalk mg).1).1.Height = mg.Height) := by
    by_cases hb : (mazeWalk mg).2
    · rw [if_pos hb]
      exact hw
    · rw [if_neg hb]
      exact ⟨hh.1.trans hw.1, hh.2.1.trans hw.2.1, hh.2.2.trans hw.2.2⟩
  unfold walk
  simp only []
  by_cases hb2 : (if (mazeWalk mg).2 then ((mazeWalk mg).1, true)
      else mazeHunt (mazeWalk mg).1).2
  · rw [if_pos hb2]
    exact hcomp
  · rw [if_neg hb2]
    exact hcomp

theorem generateMazes_pres (mg : MapGenerator) :
    (generateMazes mg).roomList = mg.roomList ∧
    (generateMazes mg).Width = mg.Width ∧
    (generateMazes mg).Height = mg.Height := by
  unfold generateMazes
  split
  · exact walk_pres mg
  · simp only []
    split
    · have := carveMaze_pres mg
      exact ⟨this.1, this.2.1, this.2.2⟩
    · exact carveMaze_pres mg

theorem except_pure_ok {α : Type} {a b : α}
    (h : (pure a : Except GoErr α) = .ok b) : a = b :=
  Except.ok.inj h

theorem connScanCell_pres (mg : MapGenerator) (x y : Int)
    (mg' : MapGenerator) (h : connScanCell mg x y = .ok mg') :
    mg'.roomList = mg.roomList ∧ mg'.Width = mg.Width ∧
      mg'.Height = mg.Height := by
  unfold connScanCell at h
  obtain ⟨r, hr, hk⟩ := except_bind_ok h
  rcases r with ⟨b, ro⟩
  cases b <;> cases ro <;>
    (first
      | (have he := except_pure_ok hk; subst he; exact ⟨rfl, rfl, rfl⟩))

theorem foldExcept_pres3
    (f : MapGenerator → Int → Except GoErr MapGenerator)
    (hf : ∀ m v m', f m v = .ok m' →
      m'.roomList = m.roomList ∧ m'.Width = m.Width ∧
        m'.Height = m.Height) :
    ∀ (l : List Int) (m m' : MapGenerator),
      foldExcept f m l = .ok m' →
      m'.roomList = m.roomList ∧ m'.Width = m.Width ∧
        m'.Height = m.Height := by
  intro l
  induction l with
  | nil =>
      intro m m' h
      unfold foldExcept at h
      have he := Except.ok.inj h
      subst he
      exact ⟨rfl, rfl, rfl⟩
  | cons v rest ih =>
      intro m m' h
      unfold foldExcept at h
      obtain ⟨m1, hm1, hk⟩ := except_bind_ok h
      have h1 := hf m v m1 hm1
      have h2 := ih m1 m' hk
      exact ⟨h2.1.trans h1.1, h2.2.1.trans h1.2.1, h2.2.2.trans h1.2.2⟩

theorem connScanRow_pres (mg : MapGenerator) (y : Int)
    (mg' : MapGenerator) (h : connScanRow mg y = .ok mg') :
    mg'.roomList = mg.roomList ∧ mg'.Width = mg.Width ∧
      mg'.Height = mg.Height := by
  unfold connScanRow at h
  exact foldExcept_pres3 _
    (fun m v m2 hh => connScanCell_pres m v y m2 hh) _ _ _ h

theorem generateConnectors_pres (mg mg' : MapGenerator)
    (h : generateConnectors mg = .ok mg') :
    mg'.roomList = mg.roomList ∧ mg'.Width = mg.Width ∧
      mg'.Height = mg.Height := by
  unfold generateConnectors at h
  obtain ⟨m1, hm1, hk⟩ := except_bind_ok h
  have h1 := foldExcept_pres3 connScanRow
    (fun m v m2 hh => connScanRow_pres m v m2 hh) _ _ _ hm1
  have he := except_pure_ok hk
  subst he
  exact ⟨h1.1, h1.2.1, h1.2.2⟩

theorem selectRootRegion_pres (mg mg' : MapGenerator)
    (h : selectRootRegion mg = .ok mg') :
    mg'.roomList = mg.roomList ∧ mg'.Width = mg.Width ∧
      mg'.Height = mg.Height := by
  unfold selectRootRegion at h
  simp only [] at h
  split at h
  · cases h
  · have he := Except.ok.inj h
    subst he
    exact ⟨rfl, rfl, rfl⟩

theorem replaceCell_pres (oldR newR : Region) (mg : MapGenerator)
    (x y : Int) :
    (replaceCell oldR newR mg x y).roomList = mg.roomList ∧
    (replaceCell oldR newR mg x y).Width = mg.Width ∧
    (replaceCell oldR newR mg x y).Height = mg.Height := by
  unfold replaceCell
  simp only []
  repeat' split
  all_goals exact ⟨rfl, rfl, rfl⟩

theorem replaceRegion_pres (mg : MapGenerator) (oldR newR : Region) :
    (replaceRegion mg oldR newR).roomList = mg.roomList ∧
    (replaceRegion mg oldR newR).Width = mg.Width ∧
    (replaceRegion mg oldR newR).Height = mg.Height := by
  unfold replaceRegion
  refine foldl_pres _
    (fun m => m.roomList = mg.roomList ∧ m.Width = mg.Width ∧
      m.Height = mg.Height) _ mg ⟨rfl, rfl, rfl⟩ ?_
  intro b a hb
  refine foldl_pres _
    (fun m => m.roomList = mg.roomList ∧ m.Width = mg.Width ∧
      m.Height = mg.Height) _ b hb ?_
  intro b2 a2 hb2
  have h := replaceCell_pres oldR newR b2 a2 a
  exact ⟨h.1.trans hb2.1, h.2.1.trans hb2.2.1, h.2.2.trans hb2.2.2⟩

theorem acceptConnector_pres (mg : MapGenerator) (root : Region)
    (c : Connector) :
    (acceptConnector mg root c).roomList = mg.roomList ∧
    (acceptConnector mg root c).Width = mg.Width ∧
    (acceptConnector mg root c).Height = mg.Height := by
  unfold acceptConnector
  simp only []
  have h := replaceRegion_pres
    { mg with terrainGrid := mg.terrainGrid.Set c.x c.y .Door,
              regionGrid := mg.regionGrid.Set c.x c.y (some root) }
    (if c.region1.id = root.id then c.region2 else c.region1) root
  exact ⟨h.1, h.2.1, h.2.2⟩

theorem connectLoop_pres (root : Region) :
    ∀ (l : List Nat) (mg mg' : MapGenerator),
      connectLoop root mg l = .ok mg' →
      mg'.roomList = mg.roomList ∧ mg'.Width = mg.Width ∧
        mg'.Height = mg.Height := by
  intro l
  induction l with
  | nil =>
      intro mg mg' h
      unfold connectLoop at h
      have he := Except.ok.inj h
      subst he
      exact ⟨rfl, rfl, rfl⟩
  | cons idx rest ih =>
      intro mg mg' h
      unfold connectLoop at h
      simp only [] at h
      split at h
      · have h2 := ih _ _ h
        exact ⟨h2.1, h2.2.1, h2.2.2⟩
      · split at h
        · have he := Except.ok.inj h
          subst he
          exact ⟨(acceptConnector_pres _ _ _).1,
            (acceptConnector_pres _ _ _).2.1,
            (acceptConnector_pres _ _ _).2.2⟩
        · have h2 := ih _ _ h
          exact ⟨h2.1, h2.2.1, h2.2.2⟩

theorem connectRegions_pres (mg mg' : MapGenerator)
    (h : connectRegions mg = .ok mg') :
    mg'.roomList = mg.roomList ∧ mg'.Width = mg.Width ∧
      mg'.Height = mg.Height := by
  unfold connectRegions at h
  split at h
  · have he := Except.ok.inj h
    subst he
    exact ⟨rfl, rfl, rfl⟩
  · simp only [] at h
    split at h
    · cases h
    · rename_i mg1 heq
      have hA : mg1.roomList = mg.roomList ∧ mg1.Width = mg.Width ∧
          mg1.Height = mg.Height := by
        split at heq
        · exact selectRootRegion_pres _ _ heq
        · have he := Except.ok.inj heq
          subst he
          exact ⟨rfl, rfl, rfl⟩
      split at h
      · cases h
      · rename_i root heqr
        split at h
        · split at h
          · have he := Except.ok.inj h
            subst he
            exact ⟨hA.1, hA.2.1, hA.2.2⟩
          · have h2 := connectLoop_pres root _ _ _ h
            exact ⟨h2.1.trans hA.1, h2.2.1.trans hA.2.1,
              h2.2.2.trans hA.2.2⟩
        · have h2 := connectLoop_pres root _ _ _ h
          exact ⟨h2.1.trans hA.1, h2.2.1.trans hA.2.1,
            h2.2.2.trans hA.2.2⟩

theorem removeDeadEnds_fold_pres (m0 : MapGenerator)
    (l : List (Int × Int)) :
    (l.foldl removeOneDeadEnd m0).roomList = m0.roomList ∧
    (l.foldl removeOneDeadEnd m0).Width = m0.Width ∧
    (l.foldl removeOneDeadEnd m0).Height = m0.Height := by
  refine foldl_pres _
    (fun m => m.roomList = m0.roomList ∧ m.Width = m0.Width ∧
      m.Height = m0.Height) _ m0 ⟨rfl, rfl, rfl⟩ ?_
  intro b a hb
  exact ⟨hb.1, hb.2.1, hb.2.2⟩

theorem removeDeadEnds_pres (mg : MapGenerator) :
    (removeDeadEnds mg).roomList = mg.roomList ∧
    (removeDeadEnds mg).Width = mg.Width ∧
    (removeDeadEnds mg).Height = mg.Height := by
  have h := removeDeadEnds_fold_pres
    { mg with deadEndsPreviouslyRemoved := mg.deadEndsRemoved,
              deadEnds := findDeadEnds
                { mg with
                  deadEndsPreviouslyRemoved := mg.deadEndsRemoved } }
    (findDeadEnds
      { mg with deadEndsPreviouslyRemoved := mg.deadEndsRemoved })
  unfold removeDeadEnds
  simp only []
  split
  · exact ⟨h.1, h.2.1, h.2.2⟩
  · exact ⟨h.1, h.2.1, h.2.2⟩

theorem roomsOk_congr {m m' : MapGenerator}
    (h1 : m'.roomList = m.roomList) (h2 : m'.Width = m.Width)
    (h3 : m'.Height = m.Height) (h : roomsOk m) : roomsOk m' := by
  unfold roomsOk at h ⊢
  rw [h1, h2, h3]
  exact h

theorem roomSizes_getD_sizeOk (k : Nat) :
    sizeOk (roomSizes.getD k (3, 3)).1 ∧
    sizeOk (roomSizes.getD k (3, 3)).2 := by
  by_cases hk : k < 12
  · interval_cases k <;>
      exact ⟨by unfold sizeOk; decide, by unfold sizeOk; decide⟩
  · rw [List.getD_eq_default]
    · exact ⟨by unfold sizeOk; decide, by unfold sizeOk; decide⟩
    · simp only [roomSizes, List.length]
      omega

theorem roomFits_within {mg : MapGenerator} {room : Room}
    (h : roomFits mg room = true) :
    roomWithin mg.Width mg.Height room := by
  unfold roomFits at h
  split at h
  · cases h
  · rename_i hc
    push_neg at hc
    unfold roomWithin
    omega

theorem roomFits_no_overlap {mg : MapGenerator} {room : Room}
    (h : roomFits mg room = true) :
    ∀ a ∈ mg.roomList, room.Overlaps a = false := by
  unfold roomFits at h
  split at h
  · cases h
  · intro a ha
    cases hb : room.Overlaps a with
    | false => rfl
    | true =>
        exfalso
        have hany : mg.roomList.any (fun r => room.Overlaps r) = true :=
          List.any_eq_true.mpr ⟨a, ha, hb⟩
        rw [hany] at h
        exact absurd h (by decide)

theorem overlaps_false_iff (r1 r2 : Room) :
    r1.Overlaps r2 = false ↔ rectDisjoint r1 r2 := by
  unfold Room.Overlaps rectDisjoint
  constructor
  · intro h hcon
    rcases hcon with ⟨h1, h2, h3, h4⟩
    rw [decide_eq_true h1, decide_eq_true h3] at h
    rw [decide_eq_true (by exact h2)] at h
    rw [decide_eq_true (by exact h4)] at h
    cases h
  · intro h
    by_contra hne
    apply h
    have hb : ((decide (r1.X < r2.X + r2.Width) &&
        decide (r1.X + r1.Width > r2.X)) &&
        (decide (r1.Y < r2.Y + r2.Height) &&
        decide (r1.Y + r1.Height > r2.Y))) = true := by
      cases hv : ((decide (r1.X < r2.X + r2.Width) &&
          decide (r1.X + r1.Width > r2.X)) &&
          (decide (r1.Y < r2.Y + r2.Height) &&
          decide (r1.Y + r1.Height > r2.Y)))
      · exact absurd hv hne
      · rfl
    simp only [Bool.and_eq_true, decide_eq_true_eq] at hb
    exact ⟨hb.1.1, hb.1.2, hb.2.1, hb.2.2⟩

theorem rectDisjoint_symm {r1 r2 : Room} (h : rectDisjoint r1 r2) :
    rectDisjoint r2 r1 := by
  unfold rectDisjoint at h ⊢
  tauto

theorem roomLoop_roomsOk (cur : Region) :
    ∀ (fuel : Nat) (mg mg' : MapGenerator),
      roomLoop cur fuel mg = .ok mg' → roomsOk mg →
      roomsOk mg' ∧ mg'.Width = mg.Width ∧ mg'.Height = mg.Height := by
  intro fuel
  induction fuel with
  | zero =>
      intro mg mg' h hok
      cases h
  | succ fuel ih =>
      intro mg mg' h hok
      unfold roomLoop at h
      simp only [] at h
      split at h
      · rename_i hfit
        have he := Except.ok.inj h
        subst he
        refine ⟨?_, rfl, rfl⟩
        have hsz := roomSizes_getD_sizeOk
          ((mg.rng.intn (roomSizes.length : Int)).1.toNat)
        have hwin : roomWithin mg.Width mg.Height (attemptRoom cur mg).1 :=
          roomFits_within hfit
        have hdisj : ∀ a ∈ mg.roomList,
            rectDisjoint a (attemptRoom cur mg).1 := by
          intro a ha
          have hno : (attemptRoom cur mg).1.Overlaps a = false :=
            roomFits_no_overlap hfit a ha
          exact rectDisjoint_symm ((overlaps_false_iff _ _).1 hno)
        refine ⟨?_, ?_⟩
        · intro r hr
          have hr' : r ∈ mg.roomList ++ [(attemptRoom cur mg).1] := hr
          rcases List.mem_append.mp hr' with hin | hin
          · have h3 := hok.1 r hin
            exact ⟨h3.1, h3.2.1, h3.2.2⟩
          · have hre : r = (attemptRoom cur mg).1 :=
              List.mem_singleton.mp hin
            subst hre
            exact ⟨hsz.1, hsz.2, hwin⟩
        · have hp : List.Pairwise rectDisjoint
              (mg.roomList ++ [(attemptRoom cur mg).1]) := by
            rw [List.pairwise_append]
            refine ⟨hok.2, ?_, ?_⟩
            · exact List.Pairwise.cons
                (fun b hb => absurd hb (List.not_mem_nil b))
                List.Pairwise.nil
            · intro a hain b hbin
              have hb : b = (attemptRoom cur mg).1 :=
                List.mem_singleton.mp hbin
              subst hb
              exact hdisj a hain
          exact hp
      · have hok2 : roomsOk { (attemptRoom cur mg).2 with
            curRoomAttempts :=
              (attemptRoom cur mg).2.curRoomAttempts + 1 } := hok
        have h2 := ih _ _ h hok2
        exact ⟨h2.1, h2.2.1, h2.2.2⟩

theorem generateRooms_roomsOk (fuel : Nat) (mg mg' : MapGenerator)
    (h : generateRooms fuel mg = .ok mg') (hok : roomsOk mg) :
    roomsOk mg' ∧ mg'.Width = mg.Width ∧ mg'.Height = mg.Height := by
  unfold generateRooms at h
  simp only [] at h
  split at h
  · obtain ⟨m1, hm1, hk⟩ := except_bind_ok h
    have hok2 : roomsOk { (nextRegion mg).2 with
        currentRegion := some (nextRegion mg).1 } := hok
    have h2 := roomLoop_roomsOk _ _ _ _ hm1 hok2
    have hA : roomsOk m1 ∧ m1.Width = mg.Width ∧ m1.Height = mg.Height :=
      ⟨h2.1, h2.2.1, h2.2.2⟩
    split at hk
    · have he := except_pure_ok hk
      subst he
      exact hA
    · have he := except_pure_ok hk
      subst he
      exact hA
  · obtain ⟨m1, hm1, hk⟩ := except_bind_ok h
    have he1 := except_pure_ok hm1
    subst he1
    split at hk
    · have he := except_pure_ok hk
      subst he
      exact ⟨hok, rfl, rfl⟩
    · have he := except_pure_ok hk
      subst he
      exact ⟨hok, rfl, rfl⟩

theorem step_roomsOk (fuel : Nat) (mg mg' : MapGenerator)
    (h : step fuel mg = .ok mg') (hok : roomsOk mg) : roomsOk mg' := by
  unfold step at h
  split at h
  · exact (generateRooms_roomsOk _ _ _ h hok).1
  · have he := Except.ok.inj h
    subst he
    have p := generateMazes_pres mg
    exact roomsOk_congr p.1 p.2.1 p.2.2 hok
  · have p := generateConnectors_pres _ _ h
    exact roomsOk_congr p.1 p.2.1 p.2.2 hok
  · have p := connectRegions_pres _ _ h
    exact roomsOk_congr p.1 p.2.1 p.2.2 hok
  · have he := Except.ok.inj h
    subst he
    have p := removeDeadEnds_pres mg
    exact roomsOk_congr p.1 p.2.1 p.2.2 hok
  · have he := Except.ok.inj h
    subst he
    exact hok

theorem runN_roomsOk (fuel : Nat) :
    ∀ (n : Nat) (mg mg' : MapGenerator),
      runN fuel n mg = .ok mg' → roomsOk mg → roomsOk mg' := by
  intro n
  induction n with
  | zero =>
      intro mg mg' h hok
      unfold runN at h
      have he := Except.ok.inj h
      subst he
      exact hok
  | succ n ih =>
      intro mg mg' h hok
      unfold runN at h
      obtain ⟨m1, hm1, hk⟩ := except_bind_ok h
      exact ih m1 mg' hk (step_roomsOk fuel mg m1 hm1 hok)

theorem roomsOk_init (width height : Int) (rng0 : Rng)
    (attempts : Int) :
    roomsOk (newMapGenWithRng width height rng0 attempts) := by
  refine ⟨?_, ?_⟩
  · intro r hr
    exact absurd hr (List.not_mem_nil r)
  · exact List.Pairwise.nil

/-- **C8**: every room accepted into the room list of any state an
arbitrary run reaches has width and height drawn from the odd palette
(3, 5, 7, 9, 11), lies strictly within the 1-cell border of the grid,
and the rectangles of distinct accepted rooms are pairwise disjoint. -/
theorem room_validity (fuel n : Nat) (width height : Int) (rng0 : Rng)
    (attempts : Int) (mg' : MapGenerator)
    (h : runN fuel n (newMapGenWithRng width height rng0 attempts)
      = .ok mg') :
    roomsOk mg' :=
  runN_roomsOk fuel n _ mg' h (roomsOk_init width height rng0 attempts)

/-- Concrete instantiation of `room_validity`: a 9 by 9 grid, one room
attempt, the all-zero stream; the single driver tick places one room
and the resulting state satisfies the room validity invariant. -/
theorem room_validity_witness :
    roomsOk (match runN 5 1 (newMapGenWithRng 9 9 zeroRng 1) with
      | .ok m => m
      | .error _ => newMapGenWithRng 9 9 zeroRng 1) :=
  room_validity 5 1 9 9 zeroRng 1 _ rfl

theorem foldl_pres_mem {α β : Type} (f : β → α → β) (Q : β → Prop) :
    ∀ (l : List α) (init : β), Q init →
      (∀ b a, a ∈ l → Q b → Q (f b a)) → Q (l.foldl f init) := by
  intro l
  induction l with
  | nil =>
      intro init h _
      exact h
  | cons v rest ih =>
      intro init h hstep
      exact ih _ (hstep init v (List.mem_cons_self v rest) h)
        (fun b a ha hb => hstep b a (List.mem_cons_of_mem v ha) hb)

theorem foldExcept_pres_mem
    (f : MapGenerator → Int → Except GoErr MapGenerator)
    (Q : MapGenerator → Prop) :
    ∀ (l : List Int),
      (∀ m v m', v ∈ l → f m v = .ok m' → Q m → Q m') →
      ∀ m m', foldExcept f m l = .ok m' → Q m → Q m' := by
  intro l
  induction l with
  | nil =>
      intro _ m m' h hq
      unfold foldExcept at h
      have he := Except.ok.inj h
      subst he
      exact hq
  | cons v rest ih =>
      intro hstep m m' h hq
      unfold foldExcept at h
      obtain ⟨m1, hm1, hk⟩ := except_bind_ok h
      exact ih
        (fun m2 v2 m3 hv2 => hstep m2 v2 m3 (List.mem_cons_of_mem v hv2))
        m1 m' hk (hstep m v m1 (List.mem_cons_self v rest) hm1 hq)

theorem listSwap_length {T : Type} [Inhabited T] (a : List T)
    (i j : Nat) : (listSwap a i j).length = a.length := by
  unfold listSwap
  simp

theorem listSwap_all {T : Type} [Inhabited T] (P : T → Prop)
    (a : List T) (i j : Nat) (hi : i < a.length) (hj : j < a.length)
    (hall : ∀ x ∈ a, P x) : ∀ x ∈ listSwap a i j, P x := by
  have hvi : a.getD i default ∈ a := by
    rw [List.getD_eq_getElem?_getD, List.getElem?_eq_getElem hi]
    exact List.getElem_mem hi
  have hvj : a.getD j default ∈ a := by
    rw [List.getD_eq_getElem?_getD, List.getElem?_eq_getElem hj]
    exact List.getElem_mem hj
  intro x hx
  unfold listSwap at hx
  simp only [] at hx
  rcases List.mem_or_eq_of_mem_set hx with hx1 | hx1
  · rcases List.mem_or_eq_of_mem_set hx1 with hx2 | hx2
    · exact hall x hx2
    · subst hx2
      exact hall _ hvj
  · subst hx1
    exact hall _ hvi

theorem shuffleGo_length {T : Type} [Inhabited T] :
    ∀ (k : Nat) (rng : Rng) (a : List T),
      (shuffleGo rng a k).1.length = a.length := by
  intro k
  induction k with
  | zero =>
      intro rng a
      rfl
  | succ k ih =>
      intro rng a
      unfold shuffleGo
      simp only []
      rw [ih]
      exact listSwap_length a _ _

theorem shuffleGo_all {T : Type} [Inhabited T] (P : T → Prop) :
    ∀ (k : Nat) (rng : Rng) (a : List T), k < a.length →
      (∀ x ∈ a, P x) → ∀ x ∈ (shuffleGo rng a k).1, P x := by
  intro k
  induction k with
  | zero =>
      intro rng a _ hall
      exact hall
  | succ k ih =>
      intro rng a hk hall
      unfold shuffleGo
      simp only []
      have hj : ((rng.intn ((k : Int) + 2)).1).toNat < a.length := by
        unfold Rng.intn
        simp only []
        have h1 : ((rng.stream rng.pos : Int)) % ((k : Int) + 2) <
            (k : Int) + 2 := Int.emod_lt_of_pos _ (by omega)
        omega
      refine ih _ _ ?_ ?_
      · rw [listSwap_length]
        omega
      · exact listSwap_all P a (k + 1) _ hk hj hall

theorem shuffleArray_length {T : Type} [Inhabited T] (rng : Rng)
    (a : List T) : (shuffleArray rng a).1.length = a.length := by
  unfold shuffleArray
  exact shuffleGo_length _ _ _

theorem shuffleArray_all {T : Type} [Inhabited T] (P : T → Prop)
    (rng : Rng) (a : List T) (hall : ∀ x ∈ a, P x) :
    ∀ x ∈ (shuffleArray rng a).1, P x := by
  unfold shuffleArray
  rcases a with _ | ⟨h0, t⟩
  · intro x hx
    exact absurd hx (List.not_mem_nil x)
  · refine shuffleGo_all P _ rng _ ?_ hall
    simp only [List.length_cons]
    omega

theorem mem_oddsLT {bound a : Int} :
    a ∈ oddsLT bound ↔ 1 ≤ a ∧ a < bound ∧ a % 2 = 1 := by
  simp only [oddsLT, List.mem_map, List.mem_range]
  constructor
  · rintro ⟨k, hk, rfl⟩
    omega
  · intro h
    refine ⟨((a - 1) / 2).toNat, by omega, by omega⟩

theorem Grid.SetRect_dims {T : Type} (g : Grid T) (x y w h : Int)
    (v : T) :
    (Grid.SetRect g x y w h v).Width = g.Width ∧
    (Grid.SetRect g x y w h v).Height = g.Height := by
  unfold Grid.SetRect
  split
  · exact ⟨rfl, rfl⟩
  · refine foldl_pres _
      (fun g2 => g2.Width = g.Width ∧ g2.Height = g.Height) _ g
      ⟨rfl, rfl⟩ ?_
    intro b1 a1 hb1
    refine foldl_pres _
      (fun g2 => g2.Width = g.Width ∧ g2.Height = g.Height) _ b1 hb1 ?_
    intro b2 a2 hb2
    exact ⟨(Grid.Set_Width _ _ _ _).trans hb2.1,
      (Grid.Set_Height _ _ _ _).trans hb2.2⟩

theorem Grid.SetRect_grid_length {T : Type} (g : Grid T)
    (x y w h : Int) (v : T) :
    (Grid.SetRect g x y w h v).grid.length = g.grid.length := by
  unfold Grid.SetRect
  split
  · rfl
  · refine foldl_pres _
      (fun g2 => g2.grid.length = g.grid.length) _ g rfl ?_
    intro b1 a1 hb1
    refine foldl_pres _
      (fun g2 => g2.grid.length = g.grid.length) _ b1 hb1 ?_
    intro b2 a2 hb2
    exact (Grid.Set_length _ _ _ _).trans hb2

theorem Grid.Get_SetRect_outside {T : Type} [Inhabited T] (g : Grid T)
    (x y w h : Int) (v : T) (a b : Int)
    (hout : ∀ dx dy : Int, 0 ≤ dx → dx < w → 0 ≤ dy → dy < h →
      ¬(a = x + dx ∧ b = y + dy)) :
    (Grid.SetRect g x y w h v).Get a b = g.Get a b := by
  unfold Grid.SetRect
  split
  · rfl
  · refine foldl_pres_mem _ (fun g2 => g2.Get a b = g.Get a b) _ g
      rfl ?_
    intro b1 a1 ha1 hb1
    refine foldl_pres_mem _ (fun g2 => g2.Get a b = g.Get a b) _ b1
      hb1 ?_
    intro b2 a2 ha2 hb2
    rw [Grid.Get_Set_ne]
    · exact hb2
    · have h1 := mem_rangeInt.mp ha2
      have h2 := mem_rangeInt.mp ha1
      exact hout a2 a1 h1.1 h1.2 h2.1 h2.2

theorem Grid.Get_Set_val {T : Type} [Inhabited T] (g : Grid T)
    (x y a b : Int) (v : T)
    (hlen : g.grid.length = (g.Width * g.Height).toNat) :
    (g.Set x y v).Get a b = v ∨ (g.Set x y v).Get a b = g.Get a b := by
  by_cases hb : 0 ≤ a ∧ a < g.Width ∧ 0 ≤ b ∧ b < g.Height
  · by_cases hne : a = x ∧ b = y
    · obtain ⟨h1, h2⟩ := hne
      subst h1
      subst h2
      left
      exact Grid.Get_Set_same g a b v hlen hb.1 hb.2.1 hb.2.2.1 hb.2.2.2
    · right
      exact Grid.Get_Set_ne g x y a b v hne
  · have h1 : (g.Set x y v).Get a b = default := by
      apply Grid.Get_oob
      rw [Grid.Set_Width, Grid.Set_Height]
      exact hb
    have h2 : g.Get a b = default := Grid.Get_oob _ _ _ hb
    right
    rw [h1, h2]

theorem BaseInv_mk_of_eq {W H : Int} {m m' : MapGenerator}
    (h : BaseInv W H m)
    (e1 : m'.Width = m.Width) (e2 : m'.Height = m.Height)
    (e3 : m'.terrainGrid = m.terrainGrid)
    (e4 : m'.visitedMazeLocations = m.visitedMazeLocations)
    (e5 : m'.incompleteRows = m.incompleteRows)
    (e6 : m'.incompleteCols = m.incompleteCols)
    (e7 : m'.connectorStore = m.connectorStore)
    (e8 : m'.connectors = m.connectors)
    (e9 : m'.rootConnectors = m.rootConnectors) :
    BaseInv W H m' := by
  refine { dimW := ?_, dimH := ?_, tgW := ?_, tgH := ?_, tgLen := ?_,
           border := ?_, visited := ?_, rows := ?_, cols := ?_,
           store := ?_, conns := ?_, rootConns := ?_ }
  · rw [e1]; exact h.dimW
  · rw [e2]; exact h.dimH
  · rw [e3]; exact h.tgW
  · rw [e3]; exact h.tgH
  · rw [e3]; exact h.tgLen
  · rw [e3]; exact h.border
  · rw [e4]; exact h.visited
  · rw [e5]; exact h.rows
  · rw [e6]; exact h.cols
  · rw [e7]; exact h.store
  · rw [e8, e7]; exact h.conns
  · rw [e9, e7]; exact h.rootConns

theorem headD_mem {T : Type} (l : List T) (d : T) (h : 0 < l.length) :
    l.headD d ∈ l := by
  cases l with
  | nil => simp at h
  | cons a t => exact List.mem_cons_self a t

theorem tg_wf_two_sets {T : Type} (g : Grid T) (x1 y1 x2 y2 : Int)
    (v1 v2 : T)
    (hlen : g.grid.length = (g.Width * g.Height).toNat) :
    ((g.Set x1 y1 v1).Set x2 y2 v2).Width = g.Width ∧
    ((g.Set x1 y1 v1).Set x2 y2 v2).Height = g.Height ∧
    ((g.Set x1 y1 v1).Set x2 y2 v2).grid.length
      = (((g.Set x1 y1 v1).Set x2 y2 v2).Width *
         ((g.Set x1 y1 v1).Set x2 y2 v2).Height).toNat := by
  refine ⟨(Grid.Set_Width _ _ _ _).trans (Grid.Set_Width _ _ _ _),
    (Grid.Set_Height _ _ _ _).trans (Grid.Set_Height _ _ _ _), ?_⟩
  rw [Grid.Set_length, Grid.Set_length, Grid.Set_Width, Grid.Set_Width,
    Grid.Set_Height, Grid.Set_Height]
  exact hlen

theorem border_preserved_set (W H : Int) (g : Grid TileKind)
    (x1 y1 : Int) (v1 : TileKind)
    (hbord : ∀ a b : Int, onBorder W H a b → g.Get a b = TileKind.Stone)
    (h1 : 1 ≤ x1 ∧ x1 ≤ W - 2 ∧ 1 ≤ y1 ∧ y1 ≤ H - 2) :
    ∀ a b : Int, onBorder W H a b →
      (g.Set x1 y1 v1).Get a b = TileKind.Stone := by
  intro a b hob
  rw [Grid.Get_Set_ne]
  · exact hbord a b hob
  · unfold onBorder at hob
    omega

theorem border_preserved_two_sets (W H : Int) (g : Grid TileKind)
    (x1 y1 x2 y2 : Int) (v1 v2 : TileKind)
    (hbord : ∀ a b : Int, onBorder W H a b → g.Get a b = TileKind.Stone)
    (h1 : 1 ≤ x1 ∧ x1 ≤ W - 2 ∧ 1 ≤ y1 ∧ y1 ≤ H - 2)
    (h2 : 1 ≤ x2 ∧ x2 ≤ W - 2 ∧ 1 ≤ y2 ∧ y2 ≤ H - 2) :
    ∀ a b : Int, onBorder W H a b →
      ((g.Set x1 y1 v1).Set x2 y2 v2).Get a b = TileKind.Stone := by
  intro a b hob
  rw [Grid.Get_Set_ne, Grid.Get_Set_ne]
  · exact hbord a b hob
  · unfold onBorder at hob
    omega
  · unfold onBorder at hob
    omega

theorem doCarve_minv (W H : Int) (hW : W % 2 = 1) (hH : H % 2 = 1)
    (mg : MapGenerator) (d : Direction) (hb : BaseInv W H mg)
    (hx : inOdd W mg.x) (hy : inOdd H mg.y)
    (hcc : canCarve mg d = true) :
    BaseInv W H (doCarve mg d) ∧ inOdd W (doCarve mg d).x ∧
      inOdd H (doCarve mg d).y := by
  have hdW := hb.dimW
  have hdH := hb.dimH
  have hx' := hx
  have hy' := hy
  unfold inOdd at hx' hy'
  cases d with
  | North =>
      have hcc2 : (if mg.y - 2 < 0 then false
          else decide (mg.terrainGrid.Get mg.x (mg.y - 2)
            = TileKind.Stone)) = true := hcc
      split at hcc2
      · cases hcc2
      · rename_i hbound
        have htw := tg_wf_two_sets mg.terrainGrid mg.x (mg.y - 1) mg.x
          (mg.y - 2) TileKind.Corridor TileKind.Corridor hb.tgLen
        refine ⟨?_, ?_, ?_⟩
        · exact { dimW := hb.dimW, dimH := hb.dimH,
                  tgW := htw.1.trans hb.tgW, tgH := htw.2.1.trans hb.tgH,
                  tgLen := htw.2.2,
                  border := border_preserved_two_sets W H mg.terrainGrid mg.x
                    (mg.y - 1) mg.x (mg.y - 2) TileKind.Corridor
                    TileKind.Corridor hb.border
                    ⟨by omega, by omega, by omega, by omega⟩
                    ⟨by omega, by omega, by omega, by omega⟩,
                  visited := hb.visited, rows := hb.rows, cols := hb.cols,
                  store := hb.store, conns := hb.conns,
                  rootConns := hb.rootConns }
        · show inOdd W mg.x
          exact hx
        · show inOdd H (mg.y - 2)
          unfold inOdd
          omega
  | South =>
      have hcc2 : (if mg.y + 2 ≥ mg.Height then false
          else decide (mg.terrainGrid.Get mg.x (mg.y + 2)
            = TileKind.Stone)) = true := hcc
      split at hcc2
      · cases hcc2
      · rename_i hbound
        have htw := tg_wf_two_sets mg.terrainGrid mg.x (mg.y + 1) mg.x
          (mg.y + 2) TileKind.Corridor TileKind.Corridor hb.tgLen
        refine ⟨?_, ?_, ?_⟩
        · exact { dimW := hb.dimW, dimH := hb.dimH,
                  tgW := htw.1.trans hb.tgW, tgH := htw.2.1.trans hb.tgH,
                  tgLen := htw.2.2,
                  border := border_preserved_two_sets W H mg.terrainGrid mg.x
                    (mg.y + 1) mg.x (mg.y + 2) TileKind.Corridor
                    TileKind.Corridor hb.border
                    ⟨by omega, by omega, by omega, by omega⟩
                    ⟨by omega, by omega, by omega, by omega⟩,
                  visited := hb.visited, rows := hb.rows, cols := hb.cols,
                  store := hb.store, conns := hb.conns,
                  rootConns := hb.rootConns }
        · show inOdd W mg.x
          exact hx
        · show inOdd H (mg.y + 2)
          unfold inOdd
          omega
  | East =>
      have hcc2 : (if mg.x + 2 ≥ mg.Width then false
          else decide (mg.terrainGrid.Get (mg.x + 2) mg.y
            = TileKind.Stone)) = true := hcc
      split at hcc2
      · cases hcc2
      · rename_i hbound
        have htw := tg_wf_two_sets mg.terrainGrid (mg.x + 1) mg.y
          (mg.x + 2) mg.y TileKind.Corridor TileKind.Corridor hb.tgLen
        refine ⟨?_, ?_, ?_⟩
        · exact { dimW := hb.dimW, dimH := hb.dimH,
                  tgW := htw.1.trans hb.tgW, tgH := htw.2.1.trans hb.tgH,
                  tgLen := htw.2.2,
                  border := border_preserved_two_sets W H mg.terrainGrid
                    (mg.x + 1) mg.y (mg.x + 2) mg.y TileKind.Corridor
                    TileKind.Corridor hb.border
                    ⟨by omega, by omega, by omega, by omega⟩
                    ⟨by omega, by omega, by omega, by omega⟩,
                  visited := hb.visited, rows := hb.rows, cols := hb.cols,
                  store := hb.store, conns := hb.conns,
                  rootConns := hb.rootConns }
        · show inOdd W (mg.x + 2)
          unfold inOdd
          omega
        · show inOdd H mg.y
          exact hy
  | West =>
      have hcc2 : (if mg.x - 2 < 0 then false
          else decide (mg.terrainGrid.Get (mg.x - 2) mg.y
            = TileKind.Stone)) = true := hcc
      split at hcc2
      · cases hcc2
      · rename_i hbound
        have htw := tg_wf_two_sets mg.terrainGrid (mg.x - 1) mg.y
          (mg.x - 2) mg.y TileKind.Corridor TileKind.Corridor hb.tgLen
        refine ⟨?_, ?_, ?_⟩
        · exact { dimW := hb.dimW, dimH := hb.dimH,
                  tgW := htw.1.trans hb.tgW, tgH := htw.2.1.trans hb.tgH,
                  tgLen := htw.2.2,
                  border := border_preserved_two_sets W H mg.terrainGrid
                    (mg.x - 1) mg.y (mg.x - 2) mg.y TileKind.Corridor
                    TileKind.Corridor hb.border
                    ⟨by omega, by omega, by omega, by omega⟩
                    ⟨by omega, by omega, by omega, by omega⟩,
                  visited := hb.visited, rows := hb.rows, cols := hb.cols,
                  store := hb.store, conns := hb.conns,
                  rootConns := hb.rootConns }
        · show inOdd W (mg.x - 2)
          unfold inOdd
          omega
        · show inOdd H mg.y
          exact hy

theorem walkDirs_minv (W H : Int) (hW : W % 2 = 1) (hH : H % 2 = 1) :
    ∀ (l : List Direction) (mg mg' : MapGenerator),
      walkDirs mg l = some mg' → BaseInv W H mg →
      inOdd W mg.x → inOdd H mg.y →
      BaseInv W H mg' ∧ inOdd W mg'.x ∧ inOdd H mg'.y := by
  intro l
  induction l with
  | nil =>
      intro mg mg' h hb hx hy
      cases h
  | cons d rest ih =>
      intro mg mg' h hb hx hy
      unfold walkDirs at h
      split at h
      · rename_i hcc
        injection h with h
        subst h
        have hd := doCarve_minv W H hW hH mg d hb hx hy hcc
        refine ⟨?_, hd.2.1, hd.2.2⟩
        refine { dimW := hd.1.dimW, dimH := hd.1.dimH, tgW := hd.1.tgW,
                 tgH := hd.1.tgH, tgLen := hd.1.tgLen,
                 border := hd.1.border, rows := hd.1.rows,
                 cols := hd.1.cols, store := hd.1.store,
                 conns := hd.1.conns, rootConns := hd.1.rootConns,
                 visited := ?_ }
        intro p hp
        rcases List.mem_append.mp hp with hp1 | hp1
        · exact hd.1.visited p hp1
        · have hpe : p = ((doCarve mg d).x, (doCarve mg d).y) :=
            List.mem_singleton.mp hp1
          subst hpe
          exact ⟨hd.2.1, hd.2.2⟩
      · exact ih mg mg' h hb hx hy

theorem mazeWalk_minv (W H : Int) (hW : W % 2 = 1) (hH : H % 2 = 1)
    (mg : MapGenerator) (hb : BaseInv W H mg) (hx : inOdd W mg.x)
    (hy : inOdd H mg.y) :
    BaseInv W H (mazeWalk mg).1 ∧ inOdd W (mazeWalk mg).1.x ∧
      inOdd H (mazeWalk mg).1.y := by
  unfold mazeWalk
  simp only []
  split
  · rename_i mg2 heq
    have hb2 : BaseInv W H (shuffleDirections mg).2 :=
      BaseInv_mk_of_eq hb rfl rfl rfl rfl rfl rfl rfl rfl rfl
    exact walkDirs_minv W H hW hH _ _ _ heq hb2 hx hy
  · exact ⟨BaseInv_mk_of_eq hb rfl rfl rfl rfl rfl rfl rfl rfl rfl,
      hx, hy⟩

theorem huntDirs_minv (W H : Int) (hW : W % 2 = 1) (hH : H % 2 = 1) :
    ∀ (l : List Direction) (mg mg' : MapGenerator),
      huntDirs mg l = some mg' → BaseInv W H mg →
      inOdd W mg.x → inOdd H mg.y →
      BaseInv W H mg' ∧ inOdd W mg'.x ∧ inOdd H mg'.y := by
  intro l
  induction l with
  | nil =>
      intro mg mg' h hb hx hy
      cases h
  | cons d rest ih =>
      intro mg mg' h hb hx hy
      unfold huntDirs at h
      split at h
      · rename_i hcc
        injection h with h
        subst h
        exact doCarve_minv W H hW hH mg d hb hx hy hcc
      · exact ih mg mg' h hb hx hy

theorem huntLoop_minv (W H : Int) (hW : W % 2 = 1) (hH : H % 2 = 1) :
    ∀ (l : List (Int × Int)) (mg : MapGenerator),
      BaseInv W H mg →
      (∀ p ∈ l, inOdd W p.1 ∧ inOdd H p.2) →
      BaseInv W H (huntLoop mg l).1 ∧
        ((huntLoop mg l).2 = true →
          inOdd W (huntLoop mg l).1.x ∧ inOdd H (huntLoop mg l).1.y) := by
  intro l
  induction l with
  | nil =>
      intro mg hb hall
      unfold huntLoop
      refine ⟨?_, ?_⟩
      · refine { dimW := hb.dimW, dimH := hb.dimH, tgW := hb.tgW,
                 tgH := hb.tgH, tgLen := hb.tgLen, border := hb.border,
                 rows := hb.rows, cols := hb.cols, store := hb.store,
                 conns := hb.conns, rootConns := hb.rootConns,
                 visited := ?_ }
        intro p hp
        exact absurd hp (List.not_mem_nil p)
      · intro hcon
        exact absurd hcon Bool.false_ne_true
  | cons p rest ih =>
      intro mg hb hall
      unfold huntLoop
      simp only []
      have hp := hall p (List.mem_cons_self p rest)
      have hb1 : BaseInv W H
          { mg with x := p.1, y := p.2,
                    visitedMazeLocations := p :: rest } := by
        refine { dimW := hb.dimW, dimH := hb.dimH, tgW := hb.tgW,
                 tgH := hb.tgH, tgLen := hb.tgLen, border := hb.border,
                 rows := hb.rows, cols := hb.cols, store := hb.store,
                 conns := hb.conns, rootConns := hb.rootConns,
                 visited := ?_ }
        exact hall
      split
      · rename_i mg2 heq
        have hb2 : BaseInv W H
            (shuffleDirections
              { mg with x := p.1, y := p.2,
                        visitedMazeLocations := p :: rest }).2 :=
          BaseInv_mk_of_eq hb1 rfl rfl rfl rfl rfl rfl rfl rfl rfl
        have h2 := huntDirs_minv W H hW hH _ _ _ heq hb2 hp.1 hp.2
        exact ⟨h2.1, fun _ => ⟨h2.2.1, h2.2.2⟩⟩
      · have hbX : BaseInv W H
            { (shuffleDirections
                { mg with x := p.1, y := p.2,
                          visitedMazeLocations := p :: rest }).2 with
              visitedMazeLocations := rest } := by
          refine { dimW := hb.dimW, dimH := hb.dimH, tgW := hb.tgW,
                   tgH := hb.tgH, tgLen := hb.tgLen, border := hb.border,
                   rows := hb.rows, cols := hb.cols, store := hb.store,
                   conns := hb.conns, rootConns := hb.rootConns,
                   visited := ?_ }
          intro q hq
          exact hall q (List.mem_cons_of_mem p hq)
        exact ih _ hbX (fun q hq => hall q (List.mem_cons_of_mem p hq))

theorem mazeHunt_minv (W H : Int) (hW : W % 2 = 1) (hH : H % 2 = 1)
    (mg : MapGenerator) (hb : BaseInv W H mg) :
    BaseInv W H (mazeHunt mg).1 ∧ ((mazeHunt mg).2 = true →
      inOdd W (mazeHunt mg).1.x ∧ inOdd H (mazeHunt mg).1.y) := by
  unfold mazeHunt
  simp only []
  have hall := shuffleArray_all (fun p => inOdd W p.1 ∧ inOdd H p.2)
    mg.rng mg.visitedMazeLocations hb.visited
  have hb1 : BaseInv W H
      { mg with
        rng := (shuffleArray mg.rng mg.visitedMazeLocations).2,
        visitedMazeLocations :=
          (shuffleArray mg.rng mg.visitedMazeLocations).1 } := by
    refine { dimW := hb.dimW, dimH := hb.dimH, tgW := hb.tgW,
             tgH := hb.tgH, tgLen := hb.tgLen, border := hb.border,
             rows := hb.rows, cols := hb.cols, store := hb.store,
             conns := hb.conns, rootConns := hb.rootConns,
             visited := ?_ }
    exact hall
  exact huntLoop_minv W H hW hH _ _ hb1 hall

theorem walk_minv (W H : Int) (hW : W % 2 = 1) (hH : H % 2 = 1)
    (mg : MapGenerator) (hb : BaseInv W H mg) (hx : inOdd W mg.x)
    (hy : inOdd H mg.y) :
    MazeInv W H (walk mg) := by
  have hw := mazeWalk_minv W H hW hH mg hb hx hy
  rcases hmw : mazeWalk mg with ⟨m1, b1⟩
  rw [hmw] at hw
  cases b1 with
  | true =>
      have he : walk mg = { m1 with walking := true } := by
        unfold walk
        rw [hmw]
        rfl
      rw [he]
      exact ⟨BaseInv_mk_of_eq hw.1 rfl rfl rfl rfl rfl rfl rfl rfl rfl,
        fun _ => ⟨hw.2.1, hw.2.2⟩⟩
  | false =>
      have hh := mazeHunt_minv W H hW hH m1 hw.1
      rcases hmh : mazeHunt m1 with ⟨m2, b2⟩
      rw [hmh] at hh
      cases b2 with
      | true =>
          have he : walk mg = { m2 with walking := true } := by
            unfold walk
            rw [hmw]
            simp only []
            rw [hmh]
            rfl
          rw [he]
          have hc := hh.2 rfl
          exact ⟨BaseInv_mk_of_eq hh.1 rfl rfl rfl rfl rfl rfl rfl rfl
            rfl, fun _ => ⟨hc.1, hc.2⟩⟩
      | false =>
          have he : walk mg =
              { (nextRegion m2).2 with
                currentRegion := some (nextRegion m2).1,
                walking := false } := by
            unfold walk
            rw [hmw]
            simp only []
            rw [hmh]
            rfl
          rw [he]
          refine ⟨?_, ?_⟩
          · exact BaseInv_mk_of_eq hh.1 rfl rfl rfl rfl rfl rfl rfl rfl
              rfl
          · intro hcon
            exact absurd hcon Bool.false_ne_true

theorem startWalking_minv (W H : Int) (hW : W % 2 = 1) (hH : H % 2 = 1)
    (mg : MapGenerator) (hb : BaseInv W H mg) (hx : inOdd W mg.x)
    (hy : inOdd H mg.y) :
    MazeInv W H (startWalking mg) := by
  have hx' := hx
  have hy' := hy
  unfold inOdd at hx' hy'
  unfold startWalking
  simp only []
  refine ⟨?_, fun _ => ⟨hx, hy⟩⟩
  refine { dimW := hb.dimW, dimH := hb.dimH,
           tgW := (Grid.Set_Width _ _ _ _).trans hb.tgW,
           tgH := (Grid.Set_Height _ _ _ _).trans hb.tgH,
           tgLen := ?_, border := ?_, visited := ?_,
           rows := hb.rows, cols := hb.cols, store := hb.store,
           conns := hb.conns, rootConns := hb.rootConns }
  · rw [Grid.Set_length, Grid.Set_Width, Grid.Set_Height]
    exact hb.tgLen
  · refine border_preserved_set W H mg.terrainGrid mg.x mg.y
      TileKind.Corridor hb.border ?_
    exact ⟨hx'.1, hx'.2.1, hy'.1, hy'.2.1⟩
  · intro p hp
    rcases List.mem_append.mp hp with h1 | h1
    · exact hb.visited p h1
    · have hpe := List.mem_singleton.mp h1
      subst hpe
      exact ⟨hx, hy⟩

theorem colScan_minv (W H : Int) (hW : W % 2 = 1) (hH : H % 2 = 1)
    (scanY : Int) (hsy : inOdd H scanY) :
    ∀ (l : List Int) (mg mg' : MapGenerator),
      colScan scanY mg l = some mg' →
      BaseInv W H mg → (∀ c ∈ l, inOdd W c) →
      MazeInv W H mg' := by
  intro l
  induction l with
  | nil =>
      intro mg mg' h hb hall
      cases h
  | cons c rest ih =>
      intro mg mg' h hb hall
      unfold colScan at h
      split at h
      · injection h with h
        subst h
        have hc := hall c (List.mem_cons_self c rest)
        have hbX : BaseInv W H
            { mg with x := c, y := scanY,
                      incompleteCols := c :: rest } := by
          refine { dimW := hb.dimW, dimH := hb.dimH, tgW := hb.tgW,
                   tgH := hb.tgH, tgLen := hb.tgLen, border := hb.border,
                   visited := hb.visited, rows := hb.rows,
                   store := hb.store, conns := hb.conns,
                   rootConns := hb.rootConns, cols := ?_ }
          exact hall
        exact startWalking_minv W H hW hH _ hbX hc hsy
      · exact ih mg mg' h hb
          (fun q hq => hall q (List.mem_cons_of_mem c hq))

theorem carveMaze_minv (W H : Int) (hW : W % 2 = 1) (hH : H % 2 = 1)
    (mg : MapGenerator) (hm : MazeInv W H mg) :
    MazeInv W H (carveMaze mg).1 := by
  obtain ⟨hb, hcur⟩ := hm
  unfold carveMaze
  split
  · exact ⟨hb, hcur⟩
  · rename_i hrows
    simp only []
    have hcols1 : ∀ c ∈ mg.incompleteCols ++ oddsLT (mg.Width - 1),
        inOdd W c := by
      intro c hc
      rcases List.mem_append.mp hc with h1 | h1
      · exact hb.cols c h1
      · have h2 := mem_oddsLT.mp h1
        have hdW := hb.dimW
        unfold inOdd
        omega
    have hrows1 : ∀ r ∈ (shuffleArray mg.rng mg.incompleteRows).1,
        inOdd H r :=
      shuffleArray_all _ mg.rng mg.incompleteRows hb.rows
    have hlpos : 0 < (shuffleArray mg.rng mg.incompleteRows).1.length := by
      rw [shuffleArray_length]
      rcases hr : mg.incompleteRows with _ | ⟨r0, rt⟩
      · rw [hr] at hrows
        exact absurd rfl hrows
      · simp only [List.length_cons]
        omega
    have hsy : inOdd H
        ((shuffleArray mg.rng mg.incompleteRows).1.headD 0) :=
      hrows1 _ (headD_mem _ _ hlpos)
    split
    · rename_i mg4 heq
      exact colScan_minv W H hW hH _ hsy _ _ _ heq
        (by
          refine { dimW := hb.dimW, dimH := hb.dimH, tgW := hb.tgW,
                   tgH := hb.tgH, tgLen := hb.tgLen, border := hb.border,
                   visited := hb.visited, rows := ?_, cols := ?_,
                   store := hb.store, conns := hb.conns,
                   rootConns := hb.rootConns }
          · exact hrows1
          · exact shuffleArray_all _ _ _ hcols1)
        (shuffleArray_all _ _ _ hcols1)
    · refine ⟨?_, fun hwk => hcur hwk⟩
      refine { dimW := hb.dimW, dimH := hb.dimH, tgW := hb.tgW,
               tgH := hb.tgH, tgLen := hb.tgLen, border := hb.border,
               visited := hb.visited, rows := ?_, cols := ?_,
               store := hb.store, conns := hb.conns,
               rootConns := hb.rootConns }
      · intro r hr
        exact hrows1 r (List.mem_of_mem_tail hr)
      · intro c hc
        exact absurd hc (List.not_mem_nil c)

theorem generateMazes_minv (W H : Int) (hW : W % 2 = 1)
    (hH : H % 2 = 1) (mg : MapGenerator) (hm : MazeInv W H mg) :
    MazeInv W H (generateMazes mg) := by
  unfold generateMazes
  split
  · rename_i hwk
    have hc := hm.2 hwk
    exact walk_minv W H hW hH mg hm.1 hc.1 hc.2
  · simp only []
    split
    · have h2 := carveMaze_minv W H hW hH mg hm
      exact ⟨BaseInv_mk_of_eq h2.1 rfl rfl rfl rfl rfl rfl rfl rfl rfl,
        h2.2⟩
    · exact carveMaze_minv W H hW hH mg hm

theorem addRoom_minv (W H : Int) (mg : MapGenerator) (room : Room)
    (hm : MazeInv W H mg) (hfit : roomFits mg room = true) :
    MazeInv W H (addRoom mg room) := by
  obtain ⟨hb, hcur⟩ := hm
  have hcon : room.X ≥ 1 ∧ room.Y ≥ 1 ∧
      room.X + room.Width ≤ mg.Width - 1 ∧
      room.Y + room.Height ≤ mg.Height - 1 := by
    unfold roomFits at hfit
    split at hfit
    · cases hfit
    · rename_i hc
      push_neg at hc
      omega
  have hdW := hb.dimW
  have hdH := hb.dimH
  unfold addRoom
  refine ⟨?_, hcur⟩
  refine { dimW := hb.dimW, dimH := hb.dimH, tgW := ?_, tgH := ?_,
           tgLen := ?_, border := ?_, visited := hb.visited,
           rows := hb.rows, cols := hb.cols, store := hb.store,
           conns := hb.conns, rootConns := hb.rootConns }
  · exact (Grid.SetRect_dims _ _ _ _ _ _).1.trans hb.tgW
  · exact (Grid.SetRect_dims _ _ _ _ _ _).2.trans hb.tgH
  · rw [Grid.SetRect_grid_length,
      (Grid.SetRect_dims mg.terrainGrid room.X room.Y room.Width
        room.Height TileKind.Room).1,
      (Grid.SetRect_dims mg.terrainGrid room.X room.Y room.Width
        room.Height TileKind.Room).2]
    exact hb.tgLen
  · intro a b hob
    rw [Grid.Get_SetRect_outside]
    · exact hb.border a b hob
    · intro dx dy h1 h2 h3 h4
      unfold onBorder at hob
      omega

theorem roomLoop_minv (W H : Int) (cur : Region) :
    ∀ (fuel : Nat) (mg mg' : MapGenerator),
      roomLoop cur fuel mg = .ok mg' → MazeInv W H mg →
      MazeInv W H mg' := by
  intro fuel
  induction fuel with
  | zero =>
      intro mg mg' h hm
      cases h
  | succ fuel ih =>
      intro mg mg' h hm
      unfold roomLoop at h
      simp only [] at h
      split at h
      · rename_i hfit
        have he := Except.ok.inj h
        subst he
        have h3 := addRoom_minv W H (attemptRoom cur mg).2
          (attemptRoom cur mg).1
          ⟨BaseInv_mk_of_eq hm.1 rfl rfl rfl rfl rfl rfl rfl rfl rfl,
            hm.2⟩ hfit
        exact ⟨BaseInv_mk_of_eq h3.1 rfl rfl rfl rfl rfl rfl rfl rfl rfl,
          h3.2⟩
      · refine ih _ _ h
          ⟨BaseInv_mk_of_eq hm.1 rfl rfl rfl rfl rfl rfl rfl rfl rfl,
            hm.2⟩

theorem generateRooms_minv (W H : Int) (fuel : Nat)
    (mg mg' : MapGenerator) (h : generateRooms fuel mg = .ok mg')
    (hm : MazeInv W H mg) : MazeInv W H mg' := by
  unfold generateRooms at h
  simp only [] at h
  split at h
  · obtain ⟨m1, hm1, hk⟩ := except_bind_ok h
    have hm2 : MazeInv W H m1 :=
      roomLoop_minv W H _ fuel _ m1 hm1
        ⟨BaseInv_mk_of_eq hm.1 rfl rfl rfl rfl rfl rfl rfl rfl rfl,
          hm.2⟩
    split at hk
    · have he := except_pure_ok hk
      subst he
      exact ⟨BaseInv_mk_of_eq hm2.1 rfl rfl rfl rfl rfl rfl rfl rfl rfl,
        hm2.2⟩
    · have he := except_pure_ok hk
      subst he
      exact hm2
  · obtain ⟨m1, hm1, hk⟩ := except_bind_ok h
    have he1 := except_pure_ok hm1
    subst he1
    split at hk
    · have he := except_pure_ok hk
      subst he
      exact ⟨BaseInv_mk_of_eq hm.1 rfl rfl rfl rfl rfl rfl rfl rfl rfl,
        hm.2⟩
    · have he := except_pure_ok hk
      subst he
      exact hm

theorem connScanCell_minv (W H : Int) (mg : MapGenerator) (x y : Int)
    (hx : 1 ≤ x ∧ x ≤ W - 2) (hy : 1 ≤ y ∧ y ≤ H - 2)
    (mg' : MapGenerator) (h : connScanCell mg x y = .ok mg')
    (hm : MazeInv W H mg) : MazeInv W H mg' := by
  unfold connScanCell at h
  obtain ⟨r, hr, hk⟩ := except_bind_ok h
  rcases r with ⟨b, ro⟩
  obtain ⟨hb, hcur⟩ := hm
  cases b with
  | false =>
      cases ro with
      | none =>
          have he := except_pure_ok hk
          subst he
          exact ⟨hb, hcur⟩
      | some rp =>
          have he := except_pure_ok hk
          subst he
          exact ⟨hb, hcur⟩
  | true =>
      cases ro with
      | none =>
          have he := except_pure_ok hk
          subst he
          exact ⟨hb, hcur⟩
      | some rp =>
          have he := except_pure_ok hk
          subst he
          refine ⟨?_, hcur⟩
          refine { dimW := hb.dimW, dimH := hb.dimH, tgW := hb.tgW,
                   tgH := hb.tgH, tgLen := hb.tgLen,
                   border := hb.border, visited := hb.visited,
                   rows := hb.rows, cols := hb.cols, store := ?_,
                   conns := ?_, rootConns := ?_ }
          · intro c hc
            rcases List.mem_append.mp hc with h1 | h1
            · exact hb.store c h1
            · have hce := List.mem_singleton.mp h1
              subst hce
              exact ⟨hx.1, hx.2, hy.1, hy.2⟩
          · intro i hi
            simp only [List.length_append, List.length_cons,
              List.length_nil]
            rcases List.mem_append.mp hi with h1 | h1
            · have := hb.conns i h1
              omega
            · have hie := List.mem_singleton.mp h1
              subst hie
              omega
          · intro i hi
            simp only [List.length_append, List.length_cons,
              List.length_nil]
            have := hb.rootConns i hi
            omega

theorem connScanRow_minv (W H : Int) (mg : MapGenerator) (y : Int)
    (hy : 1 ≤ y ∧ y ≤ H - 2) (mg' : MapGenerator)
    (h : connScanRow mg y = .ok mg') (hm : MazeInv W H mg) :
    MazeInv W H mg' := by
  have hdW := hm.1.dimW
  unfold connScanRow at h
  refine foldExcept_pres_mem _ (MazeInv W H) _ ?_ _ _ h hm
  intro m v m2 hv hok hq
  have hvb := mem_interiorRange.mp hv
  exact connScanCell_minv W H m v y ⟨by omega, by omega⟩ hy m2 hok hq

theorem generateConnectors_minv (W H : Int) (mg mg' : MapGenerator)
    (h : generateConnectors mg = .ok mg') (hm : MazeInv W H mg) :
    MazeInv W H mg' := by
  have hdH := hm.1.dimH
  unfold generateConnectors at h
  obtain ⟨m1, hm1, hk⟩ := except_bind_ok h
  have h2 : MazeInv W H m1 := by
    refine foldExcept_pres_mem _ (MazeInv W H) _ ?_ _ _ hm1 hm
    intro m v m2 hv hok hq
    have hvb := mem_interiorRange.mp hv
    exact connScanRow_minv W H m v ⟨by omega, by omega⟩ m2 hok hq
  have he := except_pure_ok hk
  subst he
  exact ⟨BaseInv_mk_of_eq h2.1 rfl rfl rfl rfl rfl rfl rfl rfl rfl,
    h2.2⟩

theorem connRewrite_coords (oldR newR : Region) (c : Connector) :
    (connRewrite oldR newR c).x = c.x ∧
    (connRewrite oldR newR c).y = c.y := by
  rw [connRewrite_eq]
  exact ⟨rfl, rfl⟩

theorem store_set_minv (W H : Int) (m : MapGenerator) (idx : Nat)
    (c2 : Connector) (hm : MazeInv W H m)
    (hc2 : 1 ≤ c2.x ∧ c2.x ≤ W - 2 ∧ 1 ≤ c2.y ∧ c2.y ≤ H - 2) :
    MazeInv W H
      { m with connectorStore := m.connectorStore.set idx c2 } := by
  obtain ⟨hb, hcur⟩ := hm
  refine ⟨?_, hcur⟩
  refine { dimW := hb.dimW, dimH := hb.dimH, tgW := hb.tgW,
           tgH := hb.tgH, tgLen := hb.tgLen, border := hb.border,
           visited := hb.visited, rows := hb.rows, cols := hb.cols,
           store := ?_, conns := ?_, rootConns := ?_ }
  · intro c hc
    rcases List.mem_or_eq_of_mem_set hc with h1 | h1
    · exact hb.store c h1
    · subst h1
      exact hc2
  · intro i hi
    rw [List.length_set]
    exact hb.conns i hi
  · intro i hi
    rw [List.length_set]
    exact hb.rootConns i hi

theorem replaceCell_minv (W H : Int) (oldR newR : Region)
    (mg : MapGenerator) (x y : Int) (hm : MazeInv W H mg) :
    MazeInv W H (replaceCell oldR newR mg x y) := by
  obtain ⟨hb, hcur⟩ := hm
  have hgen : ∀ (m : MapGenerator), MazeInv W H m →
      m.connectorStore = mg.connectorStore →
      MazeInv W H
        (match m.connectorGrid.Get x y with
         | some idx =>
             (match m.connectorStore.get? idx with
              | some c =>
                  { m with connectorStore := m.connectorStore.set idx (connRewrite oldR newR c) }
              | none => m)
         | none => m) := by
    intro m hm2 hsame
    rcases m.connectorGrid.Get x y with _ | idx
    · exact hm2
    · simp only []
      rcases hgi : m.connectorStore.get? idx with _ | c
      · exact hm2
      · have hc : c ∈ mg.connectorStore := by
          rw [← hsame]
          exact List.get?_mem hgi
        have hcoords := hb.store c hc
        have hxy := connRewrite_coords oldR newR c
        refine store_set_minv W H m idx (connRewrite oldR newR c)
          hm2 ?_
        rw [hxy.1, hxy.2]
        exact hcoords
  unfold replaceCell
  simp only []
  rcases hrg : mg.regionGrid.Get x y with _ | r
  · exact hgen mg ⟨hb, hcur⟩ rfl
  · simp only []
    by_cases hid : r.id = oldR.id
    · rw [if_pos hid]
      exact hgen { mg with
          regionGrid := mg.regionGrid.Set x y (some newR) }
        ⟨BaseInv_mk_of_eq hb rfl rfl rfl rfl rfl rfl rfl rfl rfl, hcur⟩
        rfl
    · rw [if_neg hid]
      exact hgen mg ⟨hb, hcur⟩ rfl

theorem replaceRegion_minv (W H : Int) (mg : MapGenerator)
    (oldR newR : Region) (hm : MazeInv W H mg) :
    MazeInv W H (replaceRegion mg oldR newR) := by
  unfold replaceRegion
  refine foldl_pres _ (MazeInv W H) _ mg hm ?_
  intro b a hbq
  refine foldl_pres _ (MazeInv W H) _ b hbq ?_
  intro b2 a2 hb2
  exact replaceCell_minv W H oldR newR b2 a2 a hb2

theorem acceptConnector_minv (W H : Int) (mg : MapGenerator)
    (root : Region) (c : Connector) (hm : MazeInv W H mg)
    (hcb : 1 ≤ c.x ∧ c.x ≤ W - 2 ∧ 1 ≤ c.y ∧ c.y ≤ H - 2) :
    MazeInv W H (acceptConnector mg root c) := by
  obtain ⟨hb, hcur⟩ := hm
  unfold acceptConnector
  simp only []
  have hm1 : MazeInv W H
      { mg with
        terrainGrid := mg.terrainGrid.Set c.x c.y TileKind.Door,
        regionGrid := mg.regionGrid.Set c.x c.y (some root) } := by
    refine ⟨?_, hcur⟩
    refine { dimW := hb.dimW, dimH := hb.dimH,
             tgW := (Grid.Set_Width _ _ _ _).trans hb.tgW,
             tgH := (Grid.Set_Height _ _ _ _).trans hb.tgH,
             tgLen := ?_, border := ?_, visited := hb.visited,
             rows := hb.rows, cols := hb.cols, store := hb.store,
             conns := hb.conns, rootConns := hb.rootConns }
    · rw [Grid.Set_length, Grid.Set_Width, Grid.Set_Height]
      exact hb.tgLen
    · exact border_preserved_set W H mg.terrainGrid c.x c.y
        TileKind.Door hb.border ⟨hcb.1, hcb.2.1, hcb.2.2.1, hcb.2.2.2⟩
  have hm2 := replaceRegion_minv W H _
    (if c.region1.id = root.id then c.region2 else c.region1) root hm1
  exact ⟨BaseInv_mk_of_eq hm2.1 rfl rfl rfl rfl rfl rfl rfl rfl rfl,
    hm2.2⟩

theorem connectLoop_minv (W H : Int) (root : Region) :
    ∀ (l : List Nat) (mg mg' : MapGenerator),
      connectLoop root mg l = .ok mg' → MazeInv W H mg →
      (∀ i ∈ l, i < mg.connectorStore.length) →
      MazeInv W H mg' := by
  intro l
  induction l with
  | nil =>
      intro mg mg' h hm hidx
      unfold connectLoop at h
      have he := Except.ok.inj h
      subst he
      obtain ⟨hb, hcur⟩ := hm
      refine ⟨?_, hcur⟩
      refine { dimW := hb.dimW, dimH := hb.dimH, tgW := hb.tgW,
               tgH := hb.tgH, tgLen := hb.tgLen, border := hb.border,
               visited := hb.visited, rows := hb.rows, cols := hb.cols,
               store := hb.store, conns := hb.conns, rootConns := ?_ }
      intro i hi
      exact absurd hi (List.not_mem_nil i)
  | cons idx rest ih =>
      intro mg mg' h hm hidx
      unfold connectLoop at h
      simp only [] at h
      obtain ⟨hb, hcur⟩ := hm
      have hm1 : MazeInv W H { mg with rootConnectors := rest } := by
        refine ⟨?_, hcur⟩
        refine { dimW := hb.dimW, dimH := hb.dimH, tgW := hb.tgW,
                 tgH := hb.tgH, tgLen := hb.tgLen, border := hb.border,
                 visited := hb.visited, rows := hb.rows,
                 cols := hb.cols, store := hb.store, conns := hb.conns,
                 rootConns := ?_ }
        intro i hi
        exact hidx i (List.mem_cons_of_mem idx hi)
      have hidx0 : idx < mg.connectorStore.length :=
        hidx idx (List.mem_cons_self idx rest)
      split at h
      · exact ih _ _ h hm1
          (fun i hi => hidx i (List.mem_cons_of_mem idx hi))
      · split at h
        · have he := Except.ok.inj h
          subst he
          have hcmem : mg.connectorStore.getD idx default ∈
              mg.connectorStore := by
            rw [List.getD_eq_getElem?_getD,
              List.getElem?_eq_getElem hidx0]
            exact List.getElem_mem hidx0
          have hcb := hb.store _ hcmem
          exact acceptConnector_minv W H _ root _ hm1 hcb
        · exact ih _ _ h hm1
            (fun i hi => hidx i (List.mem_cons_of_mem idx hi))

theorem findRootConnectors_minv (W H : Int) (mg : MapGenerator)
    (root : Region) (hm : MazeInv W H mg) :
    MazeInv W H (findRootConnectors mg root) := by
  obtain ⟨hb, hcur⟩ := hm
  have hall0 := shuffleArray_all
    (fun j => j < mg.connectorStore.length) mg.rng mg.connectors
    hb.conns
  unfold findRootConnectors
  simp only []
  refine ⟨?_, hcur⟩
  refine { dimW := hb.dimW, dimH := hb.dimH, tgW := hb.tgW,
           tgH := hb.tgH, tgLen := hb.tgLen, border := hb.border,
           visited := hb.visited, rows := hb.rows, cols := hb.cols,
           store := hb.store, conns := ?_, rootConns := ?_ }
  · intro i hi
    exact hall0 i (List.mem_filter.mp hi).1
  · intro i hi
    refine shuffleArray_all (fun j => j < mg.connectorStore.length)
      _ _ ?_ i hi
    intro j hj
    exact hall0 j (List.mem_filter.mp hj).1

theorem connectRegions_minv (W H : Int) (mg mg' : MapGenerator)
    (h : connectRegions mg = .ok mg') (hm : MazeInv W H mg) :
    MazeInv W H mg' := by
  unfold connectRegions at h
  split at h
  · have he := Except.ok.inj h
    subst he
    exact ⟨BaseInv_mk_of_eq hm.1 rfl rfl rfl rfl rfl rfl rfl rfl rfl,
      hm.2⟩
  · simp only [] at h
    split at h
    · cases h
    · rename_i mg1 heq
      have hm1 : MazeInv W H mg1 := by
        split at heq
        · unfold selectRootRegion at heq
          simp only [] at heq
          split at heq
          · cases heq
          · have he := Except.ok.inj heq
            subst he
            exact ⟨BaseInv_mk_of_eq hm.1 rfl rfl rfl rfl rfl rfl rfl
              rfl rfl, hm.2⟩
        · have he := Except.ok.inj heq
          subst he
          exact hm
      split at h
      · cases h
      · rename_i root heqr
        split at h
        · split at h
          · have he := Except.ok.inj h
            subst he
            have hmf := findRootConnectors_minv W H mg1 root hm1
            exact ⟨BaseInv_mk_of_eq hmf.1 rfl rfl rfl rfl rfl rfl rfl
              rfl rfl, hmf.2⟩
          · have hmf := findRootConnectors_minv W H mg1 root hm1
            obtain ⟨hbf, hcurf⟩ := hmf
            have hms : MazeInv W H
                { findRootConnectors mg1 root with
                  rootConnectors :=
                    (shuffleArray (findRootConnectors mg1 root).rng
                      (findRootConnectors mg1 root).rootConnectors).1,
                  rng :=
                    (shuffleArray (findRootConnectors mg1 root).rng
                      (findRootConnectors mg1 root).rootConnectors).2
                } := by
              refine ⟨?_, hcurf⟩
              refine { dimW := hbf.dimW, dimH := hbf.dimH,
                       tgW := hbf.tgW, tgH := hbf.tgH,
                       tgLen := hbf.tgLen, border := hbf.border,
                       visited := hbf.visited, rows := hbf.rows,
                       cols := hbf.cols, store := hbf.store,
                       conns := hbf.conns, rootConns := ?_ }
              exact shuffleArray_all _ _ _ hbf.rootConns
            exact connectLoop_minv W H root _ _ _ h hms
              hms.1.rootConns
        · exact connectLoop_minv W H root _ _ _ h hm1
            hm1.1.rootConns

theorem removeOneDeadEnd_minv (W H : Int) (acc : MapGenerator)
    (p : Int × Int) (hm : MazeInv W H acc) :
    MazeInv W H (removeOneDeadEnd acc p) := by
  obtain ⟨hb, hcur⟩ := hm
  unfold removeOneDeadEnd
  refine ⟨?_, hcur⟩
  refine { dimW := hb.dimW, dimH := hb.dimH,
           tgW := (Grid.Set_Width _ _ _ _).trans hb.tgW,
           tgH := (Grid.Set_Height _ _ _ _).trans hb.tgH,
           tgLen := ?_, border := ?_, visited := hb.visited,
           rows := hb.rows, cols := hb.cols, store := hb.store,
           conns := hb.conns, rootConns := hb.rootConns }
  · rw [Grid.Set_length, Grid.Set_Width, Grid.Set_Height]
    exact hb.tgLen
  · intro a b hob
    rcases Grid.Get_Set_val acc.terrainGrid p.1 p.2 a b TileKind.Stone
        hb.tgLen with h1 | h1
    · rw [h1]
    · rw [h1]
      exact hb.border a b hob

theorem removeDeadEnds_fold_minv (W H : Int) (m0 : MapGenerator)
    (l : List (Int × Int)) (hm : MazeInv W H m0) :
    MazeInv W H (l.foldl removeOneDeadEnd m0) := by
  refine foldl_pres _ (MazeInv W H) _ _ hm ?_
  intro b a hbq
  exact removeOneDeadEnd_minv W H b a hbq

theorem removeDeadEnds_minv (W H : Int) (mg : MapGenerator)
    (hm : MazeInv W H mg) : MazeInv W H (removeDeadEnds mg) := by
  have hminit : MazeInv W H
      { mg with
        deadEndsPreviouslyRemoved := mg.deadEndsRemoved,
        deadEnds := findDeadEnds
          { mg with deadEndsPreviouslyRemoved := mg.deadEndsRemoved }
      } :=
    ⟨BaseInv_mk_of_eq hm.1 rfl rfl rfl rfl rfl rfl rfl rfl rfl, hm.2⟩
  have hfold := removeDeadEnds_fold_minv W H _
    (findDeadEnds
      { mg with deadEndsPreviouslyRemoved := mg.deadEndsRemoved })
    hminit
  unfold removeDeadEnds
  simp only []
  split
  · exact ⟨BaseInv_mk_of_eq hfold.1 rfl rfl rfl rfl rfl rfl rfl rfl rfl,
      hfold.2⟩
  · exact hfold

theorem step_minv (W H : Int) (hW : W % 2 = 1) (hH : H % 2 = 1)
    (fuel : Nat) (mg mg' : MapGenerator) (h : step fuel mg = .ok mg')
    (hm : MazeInv W H mg) : MazeInv W H mg' := by
  unfold step at h
  split at h
  · exact generateRooms_minv W H fuel mg mg' h hm
  · have he := Except.ok.inj h
    subst he
    exact generateMazes_minv W H hW hH mg hm
  · exact generateConnectors_minv W H mg mg' h hm
  · exact connectRegions_minv W H mg mg' h hm
  · have he := Except.ok.inj h
    subst he
    exact removeDeadEnds_minv W H mg hm
  · have he := Except.ok.inj h
    subst he
    exact hm

theorem runN_minv (W H : Int) (hW : W % 2 = 1) (hH : H % 2 = 1)
    (fuel : Nat) :
    ∀ (n : Nat) (mg mg' : MapGenerator), runN fuel n mg = .ok mg' →
      MazeInv W H mg → MazeInv W H mg' := by
  intro n
  induction n with
  | zero =>
      intro mg mg' h hm
      unfold runN at h
      have he := Except.ok.inj h
      subst he
      exact hm
  | succ n ih =>
      intro mg mg' h hm
      unfold runN at h
      obtain ⟨m1, hm1, hk⟩ := except_bind_ok h
      exact ih m1 mg' hk (step_minv W H hW hH fuel mg m1 hm1 hm)

theorem minv_init (width height : Int) (rng0 : Rng) (attempts : Int) :
    MazeInv width height
      (newMapGenWithRng width height rng0 attempts) := by
  refine ⟨?_, ?_⟩
  · refine { dimW := rfl, dimH := rfl, tgW := rfl, tgH := rfl,
             tgLen := ?_, border := ?_, visited := ?_, rows := ?_,
             cols := ?_, store := ?_, conns := ?_, rootConns := ?_ }
    · show (Grid.new TileKind width height).grid.length
        = ((Grid.new TileKind width height).Width *
           (Grid.new TileKind width height).Height).toNat
      unfold Grid.new
      simp
    · intro a b hob
      exact Grid_Get_new _ _ _ _
    · intro p hp
      exact absurd hp (List.not_mem_nil p)
    · intro r hr
      have := mem_oddsLT.mp hr
      unfold inOdd
      omega
    · intro c hc
      exact absurd hc (List.not_mem_nil c)
    · intro c hc
      exact absurd hc (List.not_mem_nil c)
    · intro i hi
      exact absurd hi (List.not_mem_nil i)
    · intro i hi
      exact absurd hi (List.not_mem_nil i)
  · intro hcon
    exact absurd hcon Bool.false_ne_true

/-- **C10**: with odd width and odd height, every border cell of the
terrain grid reads Stone in every state any run reaches: room
placement, maze carving, door placement and dead-end removal never
write a walkable tile onto the border. -/
theorem border_stays_stone (width height : Int) (hW : width % 2 = 1)
    (hH : height % 2 = 1) (rng0 : Rng) (attempts : Int) (fuel n : Nat)
    (mg' : MapGenerator)
    (h : runN fuel n (newMapGenWithRng width height rng0 attempts)
      = .ok mg') :
    ∀ a b : Int, onBorder width height a b →
      mg'.terrainGrid.Get a b = TileKind.Stone :=
  (runN_minv width height hW hH fuel n _ mg' h
    (minv_init width height rng0 attempts)).1.border

/-- Concrete instantiation of `border_stays_stone`: a 5 by 5 grid run
for two driver ticks (rooms, then the first maze tick) keeps the
border cell (0, 3) Stone. -/
theorem border_stays_stone_witness :
    (5 : Int) % 2 = 1 ∧
    (match runN 9 2 (newMapGenWithRng 5 5 zeroRng 0) with
      | .ok m => m
      | .error _ => newMapGenWithRng 5 5 zeroRng 0).terrainGrid.Get 0 3
        = TileKind.Stone :=
  ⟨by decide, border_stays_stone 5 5 (by decide) (by decide) zeroRng 0
    9 2 _ rfl 0 3 (Or.inl rfl)⟩

end Sword
